import Mathlib

/-!
Verification of the aggregation/path-based cut separator
(`HighsPathSeparator::separateLpSolution`, src/src/mip/HighsPathSeparator.cpp).

The C++ code is shallowly embedded over exact rationals.  Doubles become `ℚ`;
the IEEE infinities used for bounds and slacks become the explicit extended
value type `HVal`.  Collaborator classes that are not part of the repository
slice (the LP aggregator, the cut generator, the random generator) are
modelled from the specification and are marked as such in their doc comments.
-/

namespace PathSep

/-- Row classification, from the `RowType` enum of HighsPathSeparator.cpp
(the source spells `kUnusuable`). -/
inductive RowType where
  | kUnusuable
  | kGeq
  | kEq
  | kLeq
deriving DecidableEq, Repr

/-- An IEEE double restricted to the values the separator actually handles:
a finite rational or one of the two infinities (`kHighsInf`). -/
inductive HVal where
  | ninf
  | inf
  | val (q : ℚ)
deriving DecidableEq, Repr

/-- `a > q` for an extended value against a finite rational, as the C++
comparison of doubles behaves on these operands. -/
def HVal.gtQ : HVal → ℚ → Bool
  | .inf, _ => true
  | .ninf, _ => false
  | .val a, q => a > q

/-- `a < b` on extended values, as the C++ `<` on doubles behaves when no NaN
is involved. -/
def HVal.ltH : HVal → HVal → Bool
  | .ninf, .ninf => false
  | .ninf, _ => true
  | _, .ninf => false
  | .inf, _ => false
  | .val _, .inf => true
  | .val a, .val b => a < b

/-- The relaxation data consumed by `separateLpSolution`: row bounds, the
row-wise sparse matrix (`lpRelaxation.getRow`), the list of continuous
columns (`mip.mipdata_->continuous_cols`), the transformed bound distances
(`transLp.boundDistance`), and the current LP solution's row values and row
duals.  The column-wise matrix view (`a_start_`/`a_index_`/`a_value_`) is
derived from `rows` below, so the two views are coherent by construction. -/
structure SepLP where
  numRow : ℕ
  numCol : ℕ
  rowLower : ℕ → HVal
  rowUpper : ℕ → HVal
  rows : ℕ → List (ℕ × ℚ)
  continuousCols : List ℕ
  boundDistance : ℕ → ℚ
  rowValue : ℕ → ℚ
  rowDual : ℕ → ℚ

/-- The coefficient of column `c` in row `r` (0 when no entry). -/
def SepLP.coef (lp : SepLP) (r c : ℕ) : ℚ :=
  match (lp.rows r).find? (fun e => e.1 = c) with
  | some e => e.2
  | none => 0

/-- Column-wise view of the matrix: the entries `(row, value)` of column `c`
in ascending row order, as the CSC arrays `a_index_`/`a_value_` hold them. -/
def SepLP.colEntries (lp : SepLP) (c : ℕ) : List (ℕ × ℚ) :=
  (List.range lp.numRow).filterMap (fun r =>
    match (lp.rows r).find? (fun e => e.1 = c) with
    | some e => some (r, e.2)
    | none => none)

/-- `lpRelaxation.isColIntegral`: a column is integral iff it is not one of
the continuous columns. -/
def SepLP.isColIntegral (lp : SepLP) (c : ℕ) : Bool :=
  !(decide (c ∈ lp.continuousCols))

/-- `lowerslack` of row `i`: initialised to `kHighsInf` and replaced by
`row_value - row_lower` when the lower bound is not `-inf`; a `+inf` lower
bound would make the C++ subtraction produce `-inf`. -/
def lowerslackOf (lp : SepLP) (i : ℕ) : HVal :=
  match lp.rowLower i with
  | .ninf => .inf
  | .inf => .ninf
  | .val l => .val (lp.rowValue i - l)

/-- `upperslack` of row `i`: initialised to `kHighsInf` and replaced by
`row_upper - row_value` when the upper bound is not `+inf`. -/
def upperslackOf (lp : SepLP) (i : ℕ) : HVal :=
  match lp.rowUpper i with
  | .inf => .inf
  | .ninf => .ninf
  | .val u => .val (u - lp.rowValue i)

/-- The row classification loop of `separateLpSolution` (first loop of the
function body). -/
def rowTypeOf (lp : SepLP) (feastol : ℚ) (i : ℕ) : RowType :=
  if lp.rowLower i = lp.rowUpper i then .kEq
  else if (lowerslackOf lp i).gtQ feastol && (upperslackOf lp i).gtQ feastol then .kUnusuable
  else if (lowerslackOf lp i).ltH (upperslackOf lp i) then .kGeq
  else .kLeq

/-- C4: row classification assigns exactly one kind to every row; equal
bounds give `kEq`, otherwise both slacks above tolerance give `kUnusuable`,
otherwise a strictly smaller lower slack gives `kGeq` and anything else
gives `kLeq`. -/
theorem C4_row_classification (lp : SepLP) (feastol : ℚ) (i : ℕ) :
    (lp.rowLower i = lp.rowUpper i → rowTypeOf lp feastol i = .kEq) ∧
    (lp.rowLower i ≠ lp.rowUpper i →
      ((rowTypeOf lp feastol i = .kUnusuable ↔
          (lowerslackOf lp i).gtQ feastol = true ∧
          (upperslackOf lp i).gtQ feastol = true) ∧
       (rowTypeOf lp feastol i = .kGeq ↔
          ¬((lowerslackOf lp i).gtQ feastol = true ∧
            (upperslackOf lp i).gtQ feastol = true) ∧
          (lowerslackOf lp i).ltH (upperslackOf lp i) = true) ∧
       (rowTypeOf lp feastol i = .kLeq ↔
          ¬((lowerslackOf lp i).gtQ feastol = true ∧
            (upperslackOf lp i).gtQ feastol = true) ∧
          ¬(lowerslackOf lp i).ltH (upperslackOf lp i) = true))) := by
  unfold rowTypeOf
  by_cases heq : lp.rowLower i = lp.rowUpper i
  · simp [heq]
  · simp only [heq, if_false, ne_eq, not_false_eq_true, true_and]
    constructor
    · intro _; trivial
    · intro _
      by_cases hu : ((lowerslackOf lp i).gtQ feastol && (upperslackOf lp i).gtQ feastol) = true
      · simp only [hu, if_true]
        rw [Bool.and_eq_true] at hu
        constructor
        · simp [hu]
        constructor
        · constructor
          · intro h; cases h
          · rintro ⟨h1, _⟩; exact absurd hu h1
        · constructor
          · intro h; cases h
          · rintro ⟨h1, _⟩; exact absurd hu h1
      · simp only [hu, if_false]
        rw [Bool.and_eq_true] at hu
        by_cases hl : (lowerslackOf lp i).ltH (upperslackOf lp i) = true
        · simp [hl, hu]
        · simp [hl, hu]

/-- A tiny concrete relaxation used as evaluation witness input. -/
def lpW : SepLP where
  numRow := 2
  numCol := 1
  rowLower := fun i => if i = 0 then .val 0 else .ninf
  rowUpper := fun _ => .val 0
  rows := fun i => if i = 0 then [(0, 1)] else [(0, 2)]
  continuousCols := [0]
  boundDistance := fun _ => 1
  rowValue := fun _ => 0
  rowDual := fun _ => 1

/-- Witness for C4: evaluating the classification on a concrete relaxation,
discharging each hypothesis of the theorem at that input. -/
theorem C4_row_classification_witness :
    rowTypeOf lpW (1/2) 0 = RowType.kEq ∧ rowTypeOf lpW (1/2) 1 = RowType.kLeq := by
  constructor
  · exact (C4_row_classification lpW (1/2) 0).1 (by decide)
  · exact ((C4_row_classification lpW (1/2) 1).2 (by decide)).2.2.mpr
      (by norm_num [lpW, lowerslackOf, upperslackOf, HVal.gtQ, HVal.ltH])

/-- `numContinuous[r]`: how many continuous columns with nonzero bound
distance have an incidence in row `r` (second loop of the function body). -/
def numContinuousOf (lp : SepLP) (r : ℕ) : ℕ :=
  ((lp.continuousCols.filter (fun c => lp.boundDistance c != 0)).map
    (fun c => (lp.colEntries c).countP (fun e => e.1 == r))).sum

/-- The inner scan of the substitution loop: the first entry of row `r`
whose column is continuous and has nonzero bound distance.  The C++ then
asserts that such an entry was found; when it is absent the C++ scan runs
off the end of the row, so the model simply skips the row. -/
def findSubCol (lp : SepLP) (r : ℕ) : Option (ℕ × ℚ) :=
  (lp.rows r).find? (fun e =>
    decide (e.1 ∈ lp.continuousCols) && lp.boundDistance e.1 != 0)

/-- State of the substitution-detection loop: the mutable `rowtype` array and
`colSubstitutions` (`none` standing for the `(-1, 0.0)` sentinel). -/
structure DetectState where
  rowtype : ℕ → RowType
  colSubst : ℕ → Option (ℕ × ℚ)

/-- One iteration of the substitution-detection loop (lines 85-113). -/
def detectStep (lp : SepLP) (st : DetectState) (i : ℕ) : DetectState :=
  if st.rowtype i = RowType.kEq ∧ numContinuousOf lp i = 1 then
    match findSubCol lp i with
    | none => st
    | some (col, v) =>
      if (st.colSubst col).isSome then st
      else
        { rowtype := fun j => if j = i then RowType.kUnusuable else st.rowtype j
          colSubst := fun c => if c = col then some (i, v) else st.colSubst c }
  else st

/-- The state entering the substitution-detection loop. -/
def initDetect (lp : SepLP) (feastol : ℚ) : DetectState :=
  ⟨rowTypeOf lp feastol, fun _ => none⟩

/-- Row classification followed by the full substitution-detection loop. -/
def detect (lp : SepLP) (feastol : ℚ) : DetectState :=
  (List.range lp.numRow).foldl (detectStep lp) (initDetect lp feastol)

/-- What row `i` offers as a substitution: its unique eligible continuous
entry, provided the row is an equality row with exactly one such entry. -/
def qualOf (lp : SepLP) (feastol : ℚ) (i : ℕ) : Option (ℕ × ℚ) :=
  if rowTypeOf lp feastol i = RowType.kEq ∧ numContinuousOf lp i = 1 then
    findSubCol lp i
  else none

/-- The first row below `b` whose offered substitution column is `c`,
together with the pivot coefficient. -/
def firstClaim (lp : SepLP) (feastol : ℚ) (c : ℕ) : ℕ → Option (ℕ × ℚ)
  | 0 => none
  | b + 1 =>
    match firstClaim lp feastol c b with
    | some r => some r
    | none =>
      match qualOf lp feastol b with
      | some (c', v) => if c' = c then some (b, v) else none
      | none => none

/-- Whether row `j` gets reclassified `kUnusuable` by the detection loop. -/
def demoted (lp : SepLP) (feastol : ℚ) (j : ℕ) : Prop :=
  match qualOf lp feastol j with
  | some (c, _) => firstClaim lp feastol c j = none
  | none => False

/-- Invariant of the substitution-detection fold after processing the rows
below `a`. -/
def DetectInv (lp : SepLP) (feastol : ℚ) (st : DetectState) (a : ℕ) : Prop :=
  (∀ j, a ≤ j → st.rowtype j = rowTypeOf lp feastol j) ∧
  (∀ c, st.colSubst c = firstClaim lp feastol c a) ∧
  (∀ j, j < a →
    (demoted lp feastol j → st.rowtype j = RowType.kUnusuable) ∧
    (¬ demoted lp feastol j → st.rowtype j = rowTypeOf lp feastol j))

lemma firstClaim_stable (lp : SepLP) (feastol : ℚ) (c a : ℕ)
    (hqa : ∀ v, qualOf lp feastol a ≠ some (c, v)) :
    firstClaim lp feastol c (a + 1) = firstClaim lp feastol c a := by
  rw [firstClaim]
  cases hfc : firstClaim lp feastol c a with
  | some r => rfl
  | none =>
    cases hqn : qualOf lp feastol a with
    | none => rfl
    | some cv =>
      obtain ⟨c', v⟩ := cv
      have : ¬ c' = c := fun hh => hqa v (by rw [hqn, hh])
      simp [this]

lemma detectStep_inv (lp : SepLP) (feastol : ℚ) (st : DetectState) (a : ℕ)
    (h : DetectInv lp feastol st a) :
    DetectInv lp feastol (detectStep lp st a) (a + 1) := by
  obtain ⟨h1, h2, h3⟩ := h
  have hrta : st.rowtype a = rowTypeOf lp feastol a := h1 a le_rfl
  unfold detectStep
  by_cases hg : st.rowtype a = RowType.kEq ∧ numContinuousOf lp a = 1
  · rw [if_pos hg]
    have hq : qualOf lp feastol a = findSubCol lp a := by
      unfold qualOf
      rw [if_pos ⟨hrta ▸ hg.1, hg.2⟩]
    cases hfs : findSubCol lp a with
    | none =>
      have hqa : qualOf lp feastol a = none := by rw [hq, hfs]
      show DetectInv lp feastol st (a + 1)
      refine ⟨fun j hj => h1 j (by omega), fun c => ?_, fun j hj => ?_⟩
      · rw [h2 c, firstClaim_stable lp feastol c a (fun v => by rw [hqa]; intro hh; cases hh)]
      · rcases Nat.lt_succ_iff_lt_or_eq.mp hj with hlt | rfl
        · exact h3 j hlt
        · constructor
          · intro hd
            unfold demoted at hd
            rw [hqa] at hd
            cases hd
          · intro _; exact hrta
    | some cv =>
      obtain ⟨col, v⟩ := cv
      have hqa : qualOf lp feastol a = some (col, v) := by rw [hq, hfs]
      show DetectInv lp feastol
        (if (st.colSubst col).isSome then st
         else
           { rowtype := fun j => if j = a then RowType.kUnusuable else st.rowtype j
             colSubst := fun c => if c = col then some (a, v) else st.colSubst c }) (a + 1)
      by_cases hs : (st.colSubst col).isSome
      · rw [if_pos hs]
        have hclaim : ∃ r, firstClaim lp feastol col a = some r := by
          rcases Option.isSome_iff_exists.mp hs with ⟨r, hr⟩
          exact ⟨r, by rw [← h2 col, hr]⟩
        refine ⟨fun j hj => h1 j (by omega), fun c => ?_, fun j hj => ?_⟩
        · rw [h2 c]
          show firstClaim lp feastol c a = firstClaim lp feastol c (a + 1)
          rw [firstClaim]
          cases hfc : firstClaim lp feastol c a with
          | some r => rfl
          | none =>
            rw [hqa]
            by_cases hcc : col = c
            · subst hcc
              rcases hclaim with ⟨r, hr⟩
              rw [hr] at hfc; cases hfc
            · simp [hcc]
        · rcases Nat.lt_succ_iff_lt_or_eq.mp hj with hlt | rfl
          · exact h3 j hlt
          · constructor
            · intro hd
              unfold demoted at hd
              rw [hqa] at hd
              have hd2 : firstClaim lp feastol col j = none := hd
              rcases hclaim with ⟨r, hr⟩
              rw [hr] at hd2
              cases hd2
            · intro _; exact hrta
      · rw [if_neg hs]
        have hnone : st.colSubst col = none := by
          cases hsc : st.colSubst col with
          | none => rfl
          | some r => rw [hsc] at hs; simp at hs
        have hfc : firstClaim lp feastol col a = none := by rw [← h2 col, hnone]
        refine ⟨fun j hj => ?_, fun c => ?_, fun j hj => ?_⟩
        · have hne : j ≠ a := by omega
          show (if j = a then RowType.kUnusuable else st.rowtype j) = _
          simp only [hne, if_false]
          exact h1 j (by omega)
        · show (if c = col then some (a, v) else st.colSubst c) = firstClaim lp feastol c (a + 1)
          rw [firstClaim]
          by_cases hcc : c = col
          · subst hcc
            rw [hfc, hqa]
            simp
          · simp only [hcc, if_false]
            rw [h2 c]
            cases hfcc : firstClaim lp feastol c a with
            | some r => rfl
            | none =>
              rw [hqa]
              have : ¬ col = c := fun hh => hcc hh.symm
              simp [this]
        · rcases Nat.lt_succ_iff_lt_or_eq.mp hj with hlt | rfl
          · have hne : j ≠ a := by omega
            refine ⟨fun hd => ?_, fun hd => ?_⟩
            · show (if j = a then RowType.kUnusuable else st.rowtype j) = _
              simp only [hne, if_false]
              exact (h3 j hlt).1 hd
            · show (if j = a then RowType.kUnusuable else st.rowtype j) = _
              simp only [hne, if_false]
              exact (h3 j hlt).2 hd
          · refine ⟨fun _ => ?_, fun hd => ?_⟩
            · show (if j = j then RowType.kUnusuable else st.rowtype j) = _
              simp
            · exact absurd (by unfold demoted; rw [hqa]; exact hfc) hd
  · rw [if_neg hg]
    have hqa : qualOf lp feastol a = none := by
      unfold qualOf
      rw [if_neg (by rw [hrta] at hg; exact hg)]
    refine ⟨fun j hj => h1 j (by omega), fun c => ?_, fun j hj => ?_⟩
    · rw [h2 c, firstClaim_stable lp feastol c a (fun v => by rw [hqa]; intro hh; cases hh)]
    · rcases Nat.lt_succ_iff_lt_or_eq.mp hj with hlt | rfl
      · exact h3 j hlt
      · constructor
        · intro hd
          unfold demoted at hd
          rw [hqa] at hd
          cases hd
        · intro _; exact hrta

lemma detect_foldl_inv (lp : SepLP) (feastol : ℚ) :
    ∀ (k a : ℕ) (st : DetectState), DetectInv lp feastol st a →
      DetectInv lp feastol (List.foldl (detectStep lp) st (List.range' a k)) (a + k) := by
  intro k
  induction k with
  | zero => intro a st h; simpa using h
  | succ n ih =>
    intro a st h
    rw [List.range'_succ, List.foldl_cons]
    have := ih (a + 1) (detectStep lp st a) (detectStep_inv lp feastol st a h)
    have harith : a + 1 + n = a + (n + 1) := by omega
    rwa [harith] at this

lemma detect_inv (lp : SepLP) (feastol : ℚ) :
    DetectInv lp feastol (detect lp feastol) lp.numRow := by
  have h0 : DetectInv lp feastol (initDetect lp feastol) 0 :=
    ⟨fun j _ => rfl, fun c => rfl, fun j hj => absurd hj (Nat.not_lt_zero j)⟩
  have := detect_foldl_inv lp feastol lp.numRow 0 (initDetect lp feastol) h0
  unfold detect
  rw [List.range_eq_range']
  simpa using this

lemma firstClaim_none_iff (lp : SepLP) (feastol : ℚ) (c : ℕ) :
    ∀ (b : ℕ), firstClaim lp feastol c b = none ↔
      ∀ j, j < b → ∀ w, qualOf lp feastol j ≠ some (c, w) := by
  intro b
  induction b with
  | zero =>
    constructor
    · intro _ j hj; exact absurd hj (Nat.not_lt_zero j)
    · intro _; rfl
  | succ n ih =>
    rw [firstClaim]
    cases hfc : firstClaim lp feastol c n with
    | some r =>
      constructor
      · intro h; cases h
      · intro h
        have : firstClaim lp feastol c n = none :=
          ih.mpr (fun j hj w => h j (by omega) w)
        rw [this] at hfc; cases hfc
    | none =>
      have hn : ∀ j, j < n → ∀ w, qualOf lp feastol j ≠ some (c, w) := ih.mp hfc
      cases hqn : qualOf lp feastol n with
      | none =>
        constructor
        · intro _ j hj w hw
          rcases Nat.lt_succ_iff_lt_or_eq.mp hj with hlt | rfl
          · exact hn j hlt w hw
          · rw [hqn] at hw; cases hw
        · intro _; rfl
      | some cv =>
        obtain ⟨c', w'⟩ := cv
        show ((if c' = c then some (n, w') else none) = none) ↔ _
        by_cases hcc : c' = c
        · subst hcc
          simp only [if_pos rfl]
          constructor
          · intro h; cases h
          · intro h
            exact absurd hqn (h n (Nat.lt_succ_self n) w')
        · simp only [hcc, if_false]
          constructor
          · intro _ j hj w hw
            rcases Nat.lt_succ_iff_lt_or_eq.mp hj with hlt | rfl
            · exact hn j hlt w hw
            · rw [hqn] at hw
              cases hw
              exact hcc rfl
          · intro _; trivial

lemma firstClaim_some_iff (lp : SepLP) (feastol : ℚ) (c : ℕ) :
    ∀ (b : ℕ) (i : ℕ) (v : ℚ),
      firstClaim lp feastol c b = some (i, v) ↔
        (i < b ∧ qualOf lp feastol i = some (c, v) ∧
          ∀ j, j < i → ∀ w, qualOf lp feastol j ≠ some (c, w)) := by
  intro b
  induction b with
  | zero =>
    intro i v
    constructor
    · intro h; cases h
    · rintro ⟨h, _⟩; exact absurd h (Nat.not_lt_zero i)
  | succ n ih =>
    intro i v
    rw [firstClaim]
    cases hfc : firstClaim lp feastol c n with
    | some r =>
      obtain ⟨i₀, v₀⟩ := r
      obtain ⟨hi₀, hq₀, hmin₀⟩ := (ih i₀ v₀).mp hfc
      constructor
      · intro h
        obtain ⟨rfl, rfl⟩ : i₀ = i ∧ v₀ = v := by cases h; exact ⟨rfl, rfl⟩
        exact ⟨by omega, hq₀, hmin₀⟩
      · rintro ⟨hib, hq, hmin⟩
        have : i₀ = i := by
          rcases Nat.lt_trichotomy i₀ i with hlt | heq | hgt
          · exact absurd hq₀ (hmin i₀ hlt v₀)
          · exact heq
          · exact absurd hq (hmin₀ i hgt v)
        subst this
        rw [hq₀] at hq
        cases hq
        rfl
    | none =>
      have hnone : ∀ j, j < n → ∀ w, qualOf lp feastol j ≠ some (c, w) :=
        (firstClaim_none_iff lp feastol c n).mp hfc
      constructor
      · intro h
        cases hqn : qualOf lp feastol n with
        | none => rw [hqn] at h; cases h
        | some cv =>
          obtain ⟨c', w⟩ := cv
          rw [hqn] at h
          by_cases hcc : c' = c
          · simp only [hcc, if_pos rfl] at h
            cases h
            exact ⟨Nat.lt_succ_self n, by rw [hqn, hcc], hnone⟩
          · simp only [hcc, if_false] at h
            cases h
      · rintro ⟨hib, hq, hmin⟩
        have hin : i = n := by
          rcases Nat.lt_succ_iff_lt_or_eq.mp hib with hlt | heq
          · exact absurd hq (hnone i hlt v)
          · exact heq
        subst hin
        rw [hq]
        simp

/-- C5: the recorded substitution for a column is the earliest row (in row
iteration order) that offers it: an equality row whose unique eligible
continuous incidence is that column; later qualifying rows are ignored, and
the recorded row is reclassified `kUnusuable`.  The characterization also
shows the substitution map is a function of the input alone, so re-running
detection on identical input yields the identical map. -/
theorem C5_substitution_first_wins (lp : SepLP) (feastol : ℚ) :
    (∀ c i v, (detect lp feastol).colSubst c = some (i, v) ↔
      (i < lp.numRow ∧ qualOf lp feastol i = some (c, v) ∧
        ∀ j, j < i → ∀ w, qualOf lp feastol j ≠ some (c, w))) ∧
    (∀ c i v, (detect lp feastol).colSubst c = some (i, v) →
      (detect lp feastol).rowtype i = RowType.kUnusuable) := by
  obtain ⟨h1, h2, h3⟩ := detect_inv lp feastol
  constructor
  · intro c i v
    rw [h2 c]
    exact firstClaim_some_iff lp feastol c lp.numRow i v
  · intro c i v h
    rw [h2 c] at h
    obtain ⟨hi, hq, hmin⟩ := (firstClaim_some_iff lp feastol c lp.numRow i v).mp h
    have hd : demoted lp feastol i := by
      unfold demoted
      rw [hq]
      exact (firstClaim_none_iff lp feastol c i).mpr hmin
    exact (h3 i hi).1 hd

/-- A one-row relaxation whose single row is an equality row with a unique
eligible continuous column, used as evaluation witness input. -/
def lpS : SepLP where
  numRow := 1
  numCol := 1
  rowLower := fun _ => .val 1
  rowUpper := fun _ => .val 1
  rows := fun _ => [(0, 2)]
  continuousCols := [0]
  boundDistance := fun _ => 1
  rowValue := fun _ => 0
  rowDual := fun _ => 0

/-- Witness for C5: on the concrete relaxation `lpS` the detection records
row 0 as column 0's substitution and demotes it. -/
theorem C5_substitution_first_wins_witness :
    (detect lpS (1/2)).colSubst 0 = some (0, 2) ∧
    (detect lpS (1/2)).rowtype 0 = RowType.kUnusuable := by
  have h := C5_substitution_first_wins lpS (1/2)
  have hq : qualOf lpS (1/2) 0 = some (0, 2) := by decide
  have hc : (detect lpS (1/2)).colSubst 0 = some (0, 2) :=
    (h.1 0 0 2).mpr ⟨by norm_num [lpS], hq, fun j hj w => absurd hj (Nat.not_lt_zero j)⟩
  exact ⟨hc, h.2 0 0 2 hc⟩

/-- Arc tables and per-column ranges (`inArcRows`/`colInArcs`,
`outArcRows`/`colOutArcs`); ranges default to `(0, 0)` like the
default-constructed vectors of pairs. -/
structure ArcState where
  inArcRows : List (ℕ × ℚ)
  colInArcs : ℕ → ℕ × ℕ
  outArcRows : List (ℕ × ℚ)
  colOutArcs : ℕ → ℕ × ℕ

/-- The switch of lines 141-157 classifying one incidence `(row, value)`:
unusable rows are skipped, `kLeq` rows put negative coefficients into the
in-arc table, `kGeq`/`kEq` rows put positive ones there; everything else
goes to the out-arc table. -/
def arcPush (rowtype : ℕ → RowType) (st : ArcState) (e : ℕ × ℚ) : ArcState :=
  match rowtype e.1 with
  | RowType.kUnusuable => st
  | RowType.kLeq =>
    if e.2 < 0 then { st with inArcRows := st.inArcRows ++ [e] }
    else { st with outArcRows := st.outArcRows ++ [e] }
  | _ =>
    if e.2 > 0 then { st with inArcRows := st.inArcRows ++ [e] }
    else { st with outArcRows := st.outArcRows ++ [e] }

/-- Predicate deciding whether an entry lands in the in-arc table. -/
def inArcPred (rowtype : ℕ → RowType) (e : ℕ × ℚ) : Bool :=
  match rowtype e.1 with
  | RowType.kUnusuable => false
  | RowType.kLeq => decide (e.2 < 0)
  | _ => decide (0 < e.2)

/-- Predicate deciding whether an entry lands in the out-arc table. -/
def outArcPred (rowtype : ℕ → RowType) (e : ℕ × ℚ) : Bool :=
  match rowtype e.1 with
  | RowType.kUnusuable => false
  | RowType.kLeq => decide (0 ≤ e.2)
  | _ => decide (e.2 ≤ 0)

/-- Processing one eligible column: record the begin offsets, push all of
the column's incidences, record the end offsets. -/
def buildArcsCol (lp : SepLP) (rowtype : ℕ → RowType) (st : ArcState) (c : ℕ) : ArcState :=
  let st' := (lp.colEntries c).foldl (arcPush rowtype) st
  { inArcRows := st'.inArcRows
    outArcRows := st'.outArcRows
    colInArcs := fun c' =>
      if c' = c then (st.inArcRows.length, st'.inArcRows.length) else st.colInArcs c'
    colOutArcs := fun c' =>
      if c' = c then (st.outArcRows.length, st'.outArcRows.length) else st.colOutArcs c' }

/-- One iteration of the adjacency loop over `continuous_cols`: columns at
bound distance zero or with a recorded substitution are skipped. -/
def buildArcsStep (lp : SepLP) (rowtype : ℕ → RowType) (colSubst : ℕ → Option (ℕ × ℚ))
    (st : ArcState) (c : ℕ) : ArcState :=
  if lp.boundDistance c = 0 ∨ (colSubst c).isSome then st
  else buildArcsCol lp rowtype st c

/-- The adjacency construction loop (lines 134-162). -/
def buildArcs (lp : SepLP) (rowtype : ℕ → RowType) (colSubst : ℕ → Option (ℕ × ℚ)) : ArcState :=
  lp.continuousCols.foldl (buildArcsStep lp rowtype colSubst)
    ⟨[], fun _ => (0, 0), [], fun _ => (0, 0)⟩

/-- The `[begin, end)` slice of a global arc table. -/
def sliceOf (l : List (ℕ × ℚ)) (p : ℕ × ℕ) : List (ℕ × ℚ) :=
  (l.drop p.1).take (p.2 - p.1)

/-- The in-arc entries contributed by column `c`. -/
def inFilter (lp : SepLP) (rowtype : ℕ → RowType) (c : ℕ) : List (ℕ × ℚ) :=
  (lp.colEntries c).filter (inArcPred rowtype)

/-- The out-arc entries contributed by column `c`. -/
def outFilter (lp : SepLP) (rowtype : ℕ → RowType) (c : ℕ) : List (ℕ × ℚ) :=
  (lp.colEntries c).filter (outArcPred rowtype)

lemma arcPush_spec (rowtype : ℕ → RowType) (st : ArcState) (e : ℕ × ℚ) :
    (arcPush rowtype st e).inArcRows =
      st.inArcRows ++ (if inArcPred rowtype e then [e] else []) ∧
    (arcPush rowtype st e).outArcRows =
      st.outArcRows ++ (if outArcPred rowtype e then [e] else []) ∧
    (arcPush rowtype st e).colInArcs = st.colInArcs ∧
    (arcPush rowtype st e).colOutArcs = st.colOutArcs := by
  unfold arcPush inArcPred outArcPred
  cases h : rowtype e.1 with
  | kUnusuable => simp [h]
  | kLeq =>
    by_cases hv : e.2 < 0
    · simp [h, hv, not_le.mpr hv]
    · simp [h, hv, not_lt.mp hv]
  | kGeq =>
    by_cases hv : 0 < e.2
    · simp [h, hv, not_le.mpr hv]
    · simp [h, hv, not_lt.mp hv]
  | kEq =>
    by_cases hv : 0 < e.2
    · simp [h, hv, not_le.mpr hv]
    · simp [h, hv, not_lt.mp hv]

lemma foldl_arcPush_spec (rowtype : ℕ → RowType) :
    ∀ (l : List (ℕ × ℚ)) (st : ArcState),
      (l.foldl (arcPush rowtype) st).inArcRows =
        st.inArcRows ++ l.filter (inArcPred rowtype) ∧
      (l.foldl (arcPush rowtype) st).outArcRows =
        st.outArcRows ++ l.filter (outArcPred rowtype) ∧
      (l.foldl (arcPush rowtype) st).colInArcs = st.colInArcs ∧
      (l.foldl (arcPush rowtype) st).colOutArcs = st.colOutArcs := by
  intro l
  induction l with
  | nil => intro st; simp
  | cons e t ih =>
    intro st
    obtain ⟨hpi, hpo, hci, hco⟩ := arcPush_spec rowtype st e
    obtain ⟨hi, ho, hri, hro⟩ := ih (arcPush rowtype st e)
    rw [List.foldl_cons]
    refine ⟨?_, ?_, by rw [hri, hci], by rw [hro, hco]⟩
    · rw [hi, hpi, List.filter_cons, List.append_assoc]
      by_cases hp : inArcPred rowtype e
      · simp [hp]
      · simp [hp]
    · rw [ho, hpo, List.filter_cons, List.append_assoc]
      by_cases hp : outArcPred rowtype e
      · simp [hp]
      · simp [hp]

lemma buildArcsCol_spec (lp : SepLP) (rowtype : ℕ → RowType) (st : ArcState) (c : ℕ) :
    (buildArcsCol lp rowtype st c).inArcRows = st.inArcRows ++ inFilter lp rowtype c ∧
    (buildArcsCol lp rowtype st c).outArcRows = st.outArcRows ++ outFilter lp rowtype c ∧
    (buildArcsCol lp rowtype st c).colInArcs c =
      (st.inArcRows.length, st.inArcRows.length + (inFilter lp rowtype c).length) ∧
    (buildArcsCol lp rowtype st c).colOutArcs c =
      (st.outArcRows.length, st.outArcRows.length + (outFilter lp rowtype c).length) ∧
    (∀ c', c' ≠ c → (buildArcsCol lp rowtype st c).colInArcs c' = st.colInArcs c' ∧
      (buildArcsCol lp rowtype st c).colOutArcs c' = st.colOutArcs c') := by
  obtain ⟨hi, ho, _, _⟩ := foldl_arcPush_spec rowtype (lp.colEntries c) st
  unfold buildArcsCol
  refine ⟨hi, ho, ?_, ?_, ?_⟩
  · simp only [if_pos rfl]
    rw [hi, List.length_append]
    rfl
  · simp only [if_pos rfl]
    rw [ho, List.length_append]
    rfl
  · intro c' hc'
    constructor
    · show (if c' = c then _ else st.colInArcs c') = st.colInArcs c'
      rw [if_neg hc']
    · show (if c' = c then _ else st.colOutArcs c') = st.colOutArcs c'
      rw [if_neg hc']

lemma buildArcs_foldl_appends (lp : SepLP) (rowtype : ℕ → RowType)
    (colSubst : ℕ → Option (ℕ × ℚ)) :
    ∀ (L : List ℕ) (st : ArcState),
      (∃ t, (L.foldl (buildArcsStep lp rowtype colSubst) st).inArcRows =
        st.inArcRows ++ t) ∧
      (∃ t, (L.foldl (buildArcsStep lp rowtype colSubst) st).outArcRows =
        st.outArcRows ++ t) ∧
      (∀ c, c ∉ L →
        (L.foldl (buildArcsStep lp rowtype colSubst) st).colInArcs c = st.colInArcs c ∧
        (L.foldl (buildArcsStep lp rowtype colSubst) st).colOutArcs c = st.colOutArcs c) := by
  intro L
  induction L with
  | nil => intro st; exact ⟨⟨[], by simp⟩, ⟨[], by simp⟩, fun c _ => ⟨rfl, rfl⟩⟩
  | cons c₀ T ih =>
    intro st
    rw [List.foldl_cons]
    obtain ⟨⟨ti, hti⟩, ⟨to', hto⟩, hr⟩ := ih (buildArcsStep lp rowtype colSubst st c₀)
    have hstep :
        (buildArcsStep lp rowtype colSubst st c₀).inArcRows = st.inArcRows ++
          (if lp.boundDistance c₀ = 0 ∨ (colSubst c₀).isSome then [] else inFilter lp rowtype c₀) ∧
        (buildArcsStep lp rowtype colSubst st c₀).outArcRows = st.outArcRows ++
          (if lp.boundDistance c₀ = 0 ∨ (colSubst c₀).isSome then [] else outFilter lp rowtype c₀) ∧
        (∀ c', c' ≠ c₀ →
          (buildArcsStep lp rowtype colSubst st c₀).colInArcs c' = st.colInArcs c' ∧
          (buildArcsStep lp rowtype colSubst st c₀).colOutArcs c' = st.colOutArcs c') := by
      by_cases hskip : lp.boundDistance c₀ = 0 ∨ (colSubst c₀).isSome
      · refine ⟨?_, ?_, fun c' _ => ⟨?_, ?_⟩⟩ <;>
          simp [buildArcsStep, if_pos hskip]
      · obtain ⟨h1, h2, _, _, h5⟩ := buildArcsCol_spec lp rowtype st c₀
        refine ⟨?_, ?_, fun c' hc' => ?_⟩
        · simp only [buildArcsStep, if_neg hskip]
          exact h1
        · simp only [buildArcsStep, if_neg hskip]
          exact h2
        · simp only [buildArcsStep, if_neg hskip]
          exact h5 c' hc'
    refine ⟨⟨_, by rw [hti, hstep.1, List.append_assoc]⟩,
            ⟨_, by rw [hto, hstep.2.1, List.append_assoc]⟩, ?_⟩
    intro c hc
    have hc₀ : c ≠ c₀ := fun hh => hc (hh ▸ List.mem_cons_self c₀ T)
    have hcT : c ∉ T := fun hh => hc (List.mem_cons_of_mem c₀ hh)
    obtain ⟨hr1, hr2⟩ := hr c hcT
    obtain ⟨hs1, hs2⟩ := hstep.2.2 c hc₀
    exact ⟨by rw [hr1, hs1], by rw [hr2, hs2]⟩

lemma buildArcs_slice_core (lp : SepLP) (rowtype : ℕ → RowType)
    (colSubst : ℕ → Option (ℕ × ℚ)) :
    ∀ (L : List ℕ), L.Nodup → ∀ (st : ArcState) (c : ℕ), c ∈ L →
      lp.boundDistance c ≠ 0 → colSubst c = none →
      sliceOf (L.foldl (buildArcsStep lp rowtype colSubst) st).inArcRows
          ((L.foldl (buildArcsStep lp rowtype colSubst) st).colInArcs c) =
        inFilter lp rowtype c ∧
      sliceOf (L.foldl (buildArcsStep lp rowtype colSubst) st).outArcRows
          ((L.foldl (buildArcsStep lp rowtype colSubst) st).colOutArcs c) =
        outFilter lp rowtype c := by
  intro L
  induction L with
  | nil => intro _ st c hc; exact absurd hc (List.not_mem_nil c)
  | cons c₀ T ih =>
    intro hnd st c hc hbd hsub
    have hnd' : T.Nodup := (List.nodup_cons.mp hnd).2
    have hc₀T : c₀ ∉ T := (List.nodup_cons.mp hnd).1
    rw [List.foldl_cons]
    by_cases hcc : c = c₀
    · subst hcc
      have hnoskip : ¬ (lp.boundDistance c = 0 ∨ (colSubst c).isSome) := by
        rintro (h | h)
        · exact hbd h
        · rw [hsub] at h; simp at h
      have hstep : buildArcsStep lp rowtype colSubst st c = buildArcsCol lp rowtype st c := by
        unfold buildArcsStep
        rw [if_neg hnoskip]
      rw [hstep]
      obtain ⟨h1, h2, h3, h4, _⟩ := buildArcsCol_spec lp rowtype st c
      obtain ⟨⟨ti, hti⟩, ⟨to', hto⟩, hr⟩ :=
        buildArcs_foldl_appends lp rowtype colSubst T (buildArcsCol lp rowtype st c)
      obtain ⟨hr1, hr2⟩ := hr c hc₀T
      constructor
      · rw [hti, hr1, h1, h3, List.append_assoc]
        unfold sliceOf
        simp only [Nat.add_sub_cancel_left]
        rw [List.drop_left, List.take_left]
      · rw [hto, hr2, h2, h4, List.append_assoc]
        unfold sliceOf
        simp only [Nat.add_sub_cancel_left]
        rw [List.drop_left, List.take_left]
    · have hcT : c ∈ T := by
        rcases List.mem_cons.mp hc with h | h
        · exact absurd h hcc
        · exact h
      exact ih hnd' (buildArcsStep lp rowtype colSubst st c₀) c hcT hbd hsub

/-- C6: after adjacency construction, every incidence of an eligible
non-substituted continuous column in a usable row with nonzero coefficient
appears in exactly one of the column's two arc slices, and it is in the
in-arc slice precisely per the sign convention (negative coefficient for
`kLeq` rows, positive for `kGeq`/`kEq`). -/
theorem C6_arc_partition (lp : SepLP) (rowtype : ℕ → RowType)
    (colSubst : ℕ → Option (ℕ × ℚ)) (hnd : lp.continuousCols.Nodup)
    (c : ℕ) (hc : c ∈ lp.continuousCols) (hbd : lp.boundDistance c ≠ 0)
    (hsub : colSubst c = none) (r : ℕ) (a : ℚ)
    (he : (r, a) ∈ lp.colEntries c) (hus : rowtype r ≠ RowType.kUnusuable)
    (ha : a ≠ 0) :
    ((r, a) ∈ sliceOf (buildArcs lp rowtype colSubst).inArcRows
        ((buildArcs lp rowtype colSubst).colInArcs c) ∨
      (r, a) ∈ sliceOf (buildArcs lp rowtype colSubst).outArcRows
        ((buildArcs lp rowtype colSubst).colOutArcs c)) ∧
    ¬((r, a) ∈ sliceOf (buildArcs lp rowtype colSubst).inArcRows
        ((buildArcs lp rowtype colSubst).colInArcs c) ∧
      (r, a) ∈ sliceOf (buildArcs lp rowtype colSubst).outArcRows
        ((buildArcs lp rowtype colSubst).colOutArcs c)) ∧
    ((r, a) ∈ sliceOf (buildArcs lp rowtype colSubst).inArcRows
        ((buildArcs lp rowtype colSubst).colInArcs c) ↔
      (if rowtype r = RowType.kLeq then a < 0 else 0 < a)) := by
  obtain ⟨hsi, hso⟩ :=
    buildArcs_slice_core lp rowtype colSubst lp.continuousCols hnd
      ⟨[], fun _ => (0, 0), [], fun _ => (0, 0)⟩ c hc hbd hsub
  unfold buildArcs
  rw [hsi, hso]
  have hinp : inArcPred rowtype (r, a) = true ↔
      (if rowtype r = RowType.kLeq then a < 0 else 0 < a) := by
    unfold inArcPred
    cases h : rowtype r with
    | kUnusuable => exact absurd h hus
    | kLeq => simp
    | kGeq => simp
    | kEq => simp
  have houtp : outArcPred rowtype (r, a) = true ↔
      ¬(if rowtype r = RowType.kLeq then a < 0 else 0 < a) := by
    unfold outArcPred
    cases h : rowtype r with
    | kUnusuable => exact absurd h hus
    | kLeq => simp
    | kGeq => simp
    | kEq => simp
  unfold inFilter outFilter
  rw [List.mem_filter, List.mem_filter]
  constructor
  · by_cases hp : (if rowtype r = RowType.kLeq then a < 0 else 0 < a)
    · exact Or.inl ⟨he, hinp.mpr hp⟩
    · exact Or.inr ⟨he, houtp.mpr hp⟩
  constructor
  · rintro ⟨⟨_, h1⟩, ⟨_, h2⟩⟩
    exact (houtp.mp h2) (hinp.mp h1)
  · constructor
    · rintro ⟨_, h1⟩; exact hinp.mp h1
    · intro hp; exact ⟨he, hinp.mpr hp⟩

/-- Relaxation for the C6 witness: one continuous column appearing in a
`kGeq`-classified row with a negative coefficient and a `kLeq` row with a
negative coefficient. -/
def rowtypeA : ℕ → RowType := fun r => if r = 0 then RowType.kGeq else RowType.kLeq

/-- Witness for C6: on `lpW` with its actual incidences, the entry of row 1
(a `kLeq` row, coefficient 2) lands in the out-arc slice only. -/
theorem C6_arc_partition_witness :
    (1, (2 : ℚ)) ∈ sliceOf (buildArcs lpW rowtypeA (fun _ => none)).outArcRows
      ((buildArcs lpW rowtypeA (fun _ => none)).colOutArcs 0) ∧
    ¬ (1, (2 : ℚ)) ∈ sliceOf (buildArcs lpW rowtypeA (fun _ => none)).inArcRows
      ((buildArcs lpW rowtypeA (fun _ => none)).colInArcs 0) := by
  have h := C6_arc_partition lpW rowtypeA (fun _ => none) (by decide) 0 (by decide)
    (by decide) rfl 1 2 (by decide) (by decide) (by decide)
  obtain ⟨h1, _, h3⟩ := h
  rw [if_pos (by decide : rowtypeA 1 = RowType.kLeq)] at h3
  have hnotin : ¬ (1, (2 : ℚ)) ∈ sliceOf (buildArcs lpW rowtypeA (fun _ => none)).inArcRows
      ((buildArcs lpW rowtypeA (fun _ => none)).colInArcs 0) := by
    intro hmem
    exact absurd (h3.mp hmem) (by norm_num)
  constructor
  · rcases h1 with hin | hout
    · exact absurd hin hnotin
    · exact hout
  · exact hnotin

/-- `maxPathLen` from line 167. -/
def maxPathLen : ℕ := 6

/-- Modelled from the spec (§4.3 Row Aggregator, a collaborator absent from
the repository slice): `addRow` folds `weight × row` into the aggregated
row. -/
def addRowAgg (lp : SepLP) (agg : ℕ → ℚ) (r : ℕ) (w : ℚ) : ℕ → ℚ :=
  fun c => agg c + w * lp.coef r c

/-- Modelled from the spec (§4.3 Row Aggregator): `getCurrentAggregation`
reads the aggregated row back as its sparse nonzero entries, in column
order. -/
def currentAgg (lp : SepLP) (agg : ℕ → ℚ) : List (ℕ × ℚ) :=
  (List.range lp.numCol).filterMap
    (fun c => if agg c ≠ 0 then some (c, agg c) else none)

/-- The `checkWeight` lambda (lines 184-187). -/
def checkWeight (feastol : ℚ) (w : ℚ) : Bool :=
  decide (|w| ≤ 1 / feastol) && decide (|w| ≥ feastol)

/-- Everything the per-seed-row loop reads.  `genCut` (the external
`HighsCutGeneration::generateCut`), `complement` (the aggregator's
complemented read-out) and `bits` (the `HighsRandom` bit stream) model
collaborators absent from the repository slice. -/
structure LoopCtx where
  lp : SepLP
  feastol : ℚ
  rowtype : ℕ → RowType
  colSubst : ℕ → Option (ℕ × ℚ)
  arcs : ArcState
  genCut : List (ℕ × ℚ) → ℚ → Bool
  complement : (ℕ → ℚ) → List (ℕ × ℚ)
  bits : ℕ → Bool

/-- State of the base-row scan (lines 202-234): the aggregator (mutated by
substitution folds), the `addedSubstitutionRows` flag, and the two best
candidates, each `(column, snapshot value, bound distance)`. -/
structure ScanState where
  agg : ℕ → ℚ
  added : Bool
  bestOut : Option (ℕ × ℚ × ℚ)
  bestIn : Option (ℕ × ℚ × ℚ)

/-- Processing one nonzero entry of the snapshot base row. -/
def scanEntry (ctx : LoopCtx) (s : ScanState) (e : ℕ × ℚ) : ScanState :=
  if e.1 ≥ ctx.lp.numCol ∨ ctx.lp.boundDistance e.1 = 0 ∨ ctx.lp.isColIntegral e.1 then s
  else
    match ctx.colSubst e.1 with
    | some (r, p) =>
      { s with added := true, agg := addRowAgg ctx.lp s.agg r (-(e.2) / p) }
    | none =>
      if s.added then s
      else if e.2 < 0 then
        if (ctx.arcs.colInArcs e.1).1 = (ctx.arcs.colInArcs e.1).2 then s
        else
          match s.bestOut with
          | none => { s with bestOut := some (e.1, e.2, ctx.lp.boundDistance e.1) }
          | some (_, _, bd) =>
            if ctx.lp.boundDistance e.1 > bd then
              { s with bestOut := some (e.1, e.2, ctx.lp.boundDistance e.1) }
            else s
      else
        if (ctx.arcs.colOutArcs e.1).1 = (ctx.arcs.colOutArcs e.1).2 then s
        else
          match s.bestIn with
          | none => { s with bestIn := some (e.1, e.2, ctx.lp.boundDistance e.1) }
          | some (_, _, bd) =>
            if ctx.lp.boundDistance e.1 > bd then
              { s with bestIn := some (e.1, e.2, ctx.lp.boundDistance e.1) }
            else s

/-- The whole base-row scan of one round. -/
def scanBase (ctx : LoopCtx) (agg : ℕ → ℚ) : ScanState :=
  (currentAgg ctx.lp agg).foldl (scanEntry ctx) ⟨agg, false, none, none⟩

/-- The in-arc slice of a column. -/
def sliceInOf (ctx : LoopCtx) (c : ℕ) : List (ℕ × ℚ) :=
  sliceOf ctx.arcs.inArcRows (ctx.arcs.colInArcs c)

/-- The out-arc slice of a column. -/
def sliceOutOf (ctx : LoopCtx) (c : ℕ) : List (ℕ × ℚ) :=
  sliceOf ctx.arcs.outArcRows (ctx.arcs.colOutArcs c)

/-- State of an arc-list scan: the best `(row, weight, score)` so far and
the random-bit cursor. -/
structure ArcScanState where
  best : Option (ℕ × ℚ × ℚ)
  pos : ℕ

/-- One step of an arc-list scan (the loop bodies at lines 261-275 and
286-300); the random bit is consumed only when the first two disjuncts of
the acceptance condition fail and the near-tie test passes. -/
def arcScanStep (ctx : LoopCtx) (colVal : ℚ) (s : ArcScanState) (e : ℕ × ℚ) : ArcScanState :=
  let thisWeight := -colVal / e.2
  if checkWeight ctx.feastol thisWeight then
    let thisScore := |thisWeight * ctx.lp.rowDual e.1|
    match s.best with
    | none => ⟨some (e.1, thisWeight, thisScore), s.pos⟩
    | some (_, _, score) =>
      if thisScore > score + ctx.feastol then ⟨some (e.1, thisWeight, thisScore), s.pos⟩
      else if thisScore ≥ score - ctx.feastol then
        if ctx.bits s.pos then ⟨some (e.1, thisWeight, thisScore), s.pos + 1⟩
        else ⟨s.best, s.pos + 1⟩
      else s
  else s

/-- Scanning a whole arc list for the best cancelling row. -/
def scanArcList (ctx : LoopCtx) (colVal : ℚ) (arcs : List (ℕ × ℚ)) (pos : ℕ) : ArcScanState :=
  arcs.foldl (arcScanStep ctx colVal) ⟨none, pos⟩

/-- The branch condition at lines 255-257: prefer the out-arc candidate
unless there is none, or the in-arc candidate's bound distance beats it by
more than the tolerance. -/
def chooseOutBranch (feastol : ℚ) (bestOut bestIn : Option (ℕ × ℚ × ℚ)) : Bool :=
  match bestIn with
  | none => true
  | some (_, _, inBd) =>
    match bestOut with
    | none => false
    | some (_, _, outBd) => decide (outBd ≥ inBd - feastol)

/-- Result of the extension part of one round. -/
inductive RoundRes where
  | substituted (agg : ℕ → ℚ)
  | stoppedCut (success : Bool)
  | extended (row : ℕ) (weight : ℚ) (agg : ℕ → ℚ) (pos : ℕ)
  | deadEnd (pos : ℕ)
  | oobAccess (pos : ℕ)

/-- The `check_out_arc_col` branch (lines 281-305): scan the in-arc
candidate's out-arc slice; when `bestInArcCol` is still `-1` the C++ indexes
`colOutArcs[-1]`, an out-of-bounds vector access, modelled as `oobAccess`. -/
def inBranch (ctx : LoopCtx) (agg : ℕ → ℚ) (bestIn : Option (ℕ × ℚ × ℚ)) (pos : ℕ) : RoundRes :=
  match bestIn with
  | none => RoundRes.oobAccess pos
  | some (c, v, _) =>
    let s := scanArcList ctx v (sliceOutOf ctx c) pos
    match s.best with
    | none => RoundRes.deadEnd s.pos
    | some (r, w, _) => RoundRes.extended r w (addRowAgg ctx.lp agg r w) s.pos

/-- The extension step (lines 250-305): choose a branch, scan the opposite
arc list, on out-branch failure fall through (`goto check_out_arc_col`) to
the in-arc branch. -/
def extendPath (ctx : LoopCtx) (agg : ℕ → ℚ) (bestOut bestIn : Option (ℕ × ℚ × ℚ))
    (pos : ℕ) : RoundRes :=
  if chooseOutBranch ctx.feastol bestOut bestIn then
    match bestOut with
    | none => RoundRes.oobAccess pos
    | some (c, v, _) =>
      let s := scanArcList ctx v (sliceInOf ctx c) pos
      match s.best with
      | none => inBranch ctx agg bestIn s.pos
      | some (r, w, _) => RoundRes.extended r w (addRowAgg ctx.lp agg r w) s.pos
  else inBranch ctx agg bestIn pos

/-- One round of the `while` loop together with the cut-generation attempts
it performed, each recorded as (complemented?, starting rhs). -/
structure RoundOut where
  res : RoundRes
  attempts : List (Bool × ℚ)

/-- One full iteration of the `while (currPathLen != maxPathLen)` body. -/
def round (ctx : LoopCtx) (agg : ℕ → ℚ) (pos : ℕ) : RoundOut :=
  let s := scanBase ctx agg
  if s.added then ⟨RoundRes.substituted s.agg, []⟩
  else
    let a1 := ctx.genCut (currentAgg ctx.lp agg) 0
    let success := if a1 then true else ctx.genCut (ctx.complement agg) 0
    let attempts := if a1 then [(false, (0 : ℚ))] else [(false, (0 : ℚ)), (true, (0 : ℚ))]
    if success ∨ (s.bestOut = none ∧ s.bestIn = none) then
      ⟨RoundRes.stoppedCut success, attempts⟩
    else
      ⟨extendPath ctx s.agg s.bestOut s.bestIn pos, attempts⟩

/-- Loop state: aggregator content, `currPathLen`, the number of rows
actually folded in (seed plus extensions; substitutions excluded), and the
random-bit cursor. -/
structure PathState where
  agg : ℕ → ℚ
  pathLen : ℕ
  folds : ℕ
  pos : ℕ

/-- Why the per-seed-row loop stopped. -/
inductive PathEnd where
  | cutCheckStop (success : Bool)
  | deadEnd
  | oob
  | lenCap
deriving DecidableEq

/-- Final state of the per-seed-row loop. -/
structure PathFinal where
  agg : ℕ → ℚ
  pathLen : ℕ
  folds : ℕ
  pos : ℕ
  outcome : PathEnd
  attempts : List (Bool × ℚ)

/-- The per-seed-row loop, with explicit fuel (`none` = fuel exhausted). -/
def runPath (ctx : LoopCtx) : ℕ → PathState → Option PathFinal
  | 0, _ => none
  | fuel + 1, st =>
    if st.pathLen = maxPathLen then
      some ⟨st.agg, st.pathLen, st.folds, st.pos, PathEnd.lenCap, []⟩
    else
      let ro := round ctx st.agg st.pos
      match ro.res with
      | RoundRes.substituted agg' =>
        (runPath ctx fuel ⟨agg', st.pathLen, st.folds, st.pos⟩).map
          (fun f => { f with attempts := ro.attempts ++ f.attempts })
      | RoundRes.stoppedCut success =>
        some ⟨st.agg, st.pathLen, st.folds, st.pos, PathEnd.cutCheckStop success, ro.attempts⟩
      | RoundRes.deadEnd p =>
        some ⟨st.agg, st.pathLen + 1, st.folds, p, PathEnd.deadEnd, ro.attempts⟩
      | RoundRes.oobAccess p =>
        some ⟨st.agg, st.pathLen + 1, st.folds, p, PathEnd.oob, ro.attempts⟩
      | RoundRes.extended _ _ agg' p =>
        (runPath ctx fuel ⟨agg', st.pathLen + 1, st.folds + 1, p⟩).map
          (fun f => { f with attempts := ro.attempts ++ f.attempts })

/-- Seeding the aggregator for row `i` (lines 170-180): weight `-1` for
`kLeq` rows, weight `+1` otherwise. -/
def seedState (ctx : LoopCtx) (i : ℕ) (pos : ℕ) : PathState :=
  ⟨addRowAgg ctx.lp (fun _ => 0) i
      (if ctx.rowtype i = RowType.kLeq then -1 else 1), 1, 1, pos⟩

/-- The context the separator builds before the seed loop. -/
def mkCtx (lp : SepLP) (feastol : ℚ) (genCut : List (ℕ × ℚ) → ℚ → Bool)
    (complement : (ℕ → ℚ) → List (ℕ × ℚ)) (bits : ℕ → Bool) : LoopCtx :=
  { lp := lp
    feastol := feastol
    rowtype := (detect lp feastol).rowtype
    colSubst := (detect lp feastol).colSubst
    arcs := buildArcs lp (detect lp feastol).rowtype (detect lp feastol).colSubst
    genCut := genCut
    complement := complement
    bits := bits }

/-- The whole `separateLpSolution` call: re-seed the random generator from
`random_seed + getNumLpIterations()` (lines 39-40, with the generator
modelled from the spec as a family `G` of bit streams indexed by seed),
classify, detect substitutions, build the adjacency and run the seed loop
over all usable rows, threading the random cursor. -/
def separateLpSolution (lp : SepLP) (feastol : ℚ)
    (genCut : List (ℕ × ℚ) → ℚ → Bool) (complement : (ℕ → ℚ) → List (ℕ × ℚ))
    (G : ℕ → ℕ → Bool) (randomSeed numLpIterations : ℕ) :
    List (ℕ × Option PathFinal) :=
  let ctx := mkCtx lp feastol genCut complement (G (randomSeed + numLpIterations))
  ((List.range lp.numRow).foldl
    (fun (acc : List (ℕ × Option PathFinal) × ℕ) i =>
      if ctx.rowtype i = RowType.kUnusuable then acc
      else
        match runPath ctx 14 (seedState ctx i acc.2) with
        | some f => (acc.1 ++ [(i, some f)], f.pos)
        | none => (acc.1 ++ [(i, none)], acc.2))
    ([], 0)).1

/-- C9: the generator is re-seeded per invocation with
`random_seed + getNumLpIterations()`; hence two invocations agreeing on the
relaxation state, tolerance and that sum produce identical tie-break
outcomes and identical per-seed-row results. -/
theorem C9_reseed_reproducibility (lp : SepLP) (feastol : ℚ)
    (genCut : List (ℕ × ℚ) → ℚ → Bool) (complement : (ℕ → ℚ) → List (ℕ × ℚ))
    (G : ℕ → ℕ → Bool) (s₁ i₁ s₂ i₂ : ℕ) (h : s₁ + i₁ = s₂ + i₂) :
    separateLpSolution lp feastol genCut complement G s₁ i₁ =
      separateLpSolution lp feastol genCut complement G s₂ i₂ := by
  unfold separateLpSolution
  rw [h]

/-- Witness for C9: two concrete invocations whose seed and iteration count
sum to the same value give the same result. -/
theorem C9_reseed_reproducibility_witness :
    separateLpSolution lpW (1/2) (fun _ _ => false) (fun _ => []) (fun _ _ => false) 2 3 =
      separateLpSolution lpW (1/2) (fun _ _ => false) (fun _ => []) (fun _ _ => false) 4 1 :=
  C9_reseed_reproducibility lpW (1/2) (fun _ _ => false) (fun _ => [])
    (fun _ _ => false) 2 3 4 1 (by decide)

/-- C7: the out-arc candidate branch is taken unless no out-arc candidate
exists, or an in-arc candidate exists whose bound distance exceeds the
out-arc candidate's by more than the feasibility tolerance; ties and
near-ties within the tolerance take the out-arc branch. -/
theorem C7_out_arc_preference (feastol : ℚ) (bestOut bestIn : Option (ℕ × ℚ × ℚ)) :
    (bestIn = none → chooseOutBranch feastol bestOut bestIn = true) ∧
    (bestOut = none → bestIn ≠ none → chooseOutBranch feastol bestOut bestIn = false) ∧
    (∀ co vo bdo ci vi bdi, bestOut = some (co, vo, bdo) → bestIn = some (ci, vi, bdi) →
      (chooseOutBranch feastol bestOut bestIn = true ↔ ¬ bdo + feastol < bdi)) := by
  refine ⟨?_, ?_, ?_⟩
  · rintro rfl
    rfl
  · rintro rfl hne
    cases bestIn with
    | none => exact absurd rfl hne
    | some x =>
      obtain ⟨c, v, bd⟩ := x
      rfl
  · rintro co vo bdo ci vi bdi rfl rfl
    show decide (bdo ≥ bdi - feastol) = true ↔ ¬ bdo + feastol < bdi
    rw [decide_eq_true_eq, ge_iff_le, sub_le_iff_le_add, not_lt]

/-- Witness for C7: with equal bound distances (a tie) the out-arc branch is
selected. -/
theorem C7_out_arc_preference_witness :
    chooseOutBranch (1/2) (some (0, -1, 1)) (some (1, 1, 1)) = true := by
  refine ((C7_out_arc_preference (1/2) (some (0, -1, 1)) (some (1, 1, 1))).2.2
    0 (-1) 1 1 1 1 rfl rfl).mpr ?_
  norm_num

lemma scanArcList_best_checkWeight (ctx : LoopCtx) (colVal : ℚ) (arcs : List (ℕ × ℚ))
    (pos : ℕ) : ∀ r w sc, (scanArcList ctx colVal arcs pos).best = some (r, w, sc) →
      checkWeight ctx.feastol w = true := by
  have gen : ∀ (l : List (ℕ × ℚ)) (s : ArcScanState),
      (∀ r w sc, s.best = some (r, w, sc) → checkWeight ctx.feastol w = true) →
      ∀ r w sc, (l.foldl (arcScanStep ctx colVal) s).best = some (r, w, sc) →
        checkWeight ctx.feastol w = true := by
    intro l
    induction l with
    | nil => intro s hs; exact hs
    | cons e t ih =>
      intro s hs
      rw [List.foldl_cons]
      apply ih
      intro r w sc h
      unfold arcScanStep at h
      by_cases hc : checkWeight ctx.feastol (-colVal / e.2) = true
      · rw [if_pos hc] at h
        cases hb : s.best with
        | none =>
          rw [hb] at h
          simp only [Option.some.injEq, Prod.mk.injEq] at h
          obtain ⟨_, hw, _⟩ := h
          exact hw ▸ hc
        | some b =>
          obtain ⟨r₀, w₀, sc₀⟩ := b
          rw [hb] at h
          simp only at h
          split at h
          · simp only [Option.some.injEq, Prod.mk.injEq] at h
            obtain ⟨_, hw, _⟩ := h
            exact hw ▸ hc
          · split at h
            · split at h
              · simp only [Option.some.injEq, Prod.mk.injEq] at h
                obtain ⟨_, hw, _⟩ := h
                exact hw ▸ hc
              · exact hs r w sc (hb ▸ h)
            · exact hs r w sc (hb ▸ h)
      · rw [if_neg hc] at h
        exact hs r w sc h
  intro r w sc
  exact gen arcs ⟨none, pos⟩ (fun r w sc h => by cases h) r w sc

lemma scanArcList_filter (ctx : LoopCtx) (colVal : ℚ) :
    ∀ (arcs : List (ℕ × ℚ)) (s : ArcScanState),
      arcs.foldl (arcScanStep ctx colVal) s =
        (arcs.filter (fun e => checkWeight ctx.feastol (-colVal / e.2))).foldl
          (arcScanStep ctx colVal) s := by
  intro arcs
  induction arcs with
  | nil => intro s; rfl
  | cons e t ih =>
    intro s
    rw [List.filter_cons]
    by_cases hc : checkWeight ctx.feastol (-colVal / e.2) = true
    · rw [if_pos hc, List.foldl_cons, List.foldl_cons, ih]
    · have hstep : arcScanStep ctx colVal s e = s := by
        unfold arcScanStep
        rw [if_neg hc]
      rw [List.foldl_cons, hstep, ih]
      have hcf : (fun e => checkWeight ctx.feastol (-colVal / e.2)) e = false :=
        Bool.not_eq_true _ ▸ eq_false_of_ne_true hc
      simp only [hcf, Bool.false_eq_true, if_false]

/-- C8: a row folded by an extension step always carries a weight inside
`[feastol, 1/feastol]` in absolute value, and candidate rows with an
out-of-band cancelling weight are merely skipped: the arc scan behaves
exactly as the scan of the in-band sublist, so a rejection never aborts the
scan or the path. -/
theorem C8_weight_safety (ctx : LoopCtx) :
    (∀ agg bestOut bestIn pos r w agg' p,
      extendPath ctx agg bestOut bestIn pos = RoundRes.extended r w agg' p →
      ctx.feastol ≤ |w| ∧ |w| ≤ 1 / ctx.feastol) ∧
    (∀ colVal arcs pos,
      scanArcList ctx colVal arcs pos =
        scanArcList ctx colVal
          (arcs.filter (fun e => checkWeight ctx.feastol (-colVal / e.2))) pos) := by
  constructor
  · have hin : ∀ agg bestIn pos r w agg' p,
        inBranch ctx agg bestIn pos = RoundRes.extended r w agg' p →
        ctx.feastol ≤ |w| ∧ |w| ≤ 1 / ctx.feastol := by
      intro agg bestIn pos r w agg' p h
      unfold inBranch at h
      cases bestIn with
      | none => cases h
      | some b =>
        obtain ⟨c, v, bd⟩ := b
        simp only at h
        cases hbest : (scanArcList ctx v (sliceOutOf ctx c) pos).best with
        | none => rw [hbest] at h; cases h
        | some b₂ =>
          obtain ⟨r₂, w₂, sc₂⟩ := b₂
          rw [hbest] at h
          simp only [RoundRes.extended.injEq] at h
          obtain ⟨_, hw, _, _⟩ := h
          have := scanArcList_best_checkWeight ctx v (sliceOutOf ctx c) pos r₂ w₂ sc₂ hbest
          unfold checkWeight at this
          rw [Bool.and_eq_true, decide_eq_true_eq, decide_eq_true_eq] at this
          rw [← hw]
          exact ⟨this.2, this.1⟩
    intro agg bestOut bestIn pos r w agg' p h
    unfold extendPath at h
    by_cases hch : chooseOutBranch ctx.feastol bestOut bestIn = true
    · rw [if_pos hch] at h
      cases bestOut with
      | none => cases h
      | some b =>
        obtain ⟨c, v, bd⟩ := b
        simp only at h
        cases hbest : (scanArcList ctx v (sliceInOf ctx c) pos).best with
        | none =>
          rw [hbest] at h
          exact hin agg bestIn _ r w agg' p h
        | some b₂ =>
          obtain ⟨r₂, w₂, sc₂⟩ := b₂
          rw [hbest] at h
          simp only [RoundRes.extended.injEq] at h
          obtain ⟨_, hw, _, _⟩ := h
          have := scanArcList_best_checkWeight ctx v (sliceInOf ctx c) pos r₂ w₂ sc₂ hbest
          unfold checkWeight at this
          rw [Bool.and_eq_true, decide_eq_true_eq, decide_eq_true_eq] at this
          rw [← hw]
          exact ⟨this.2, this.1⟩
    · rw [if_neg hch] at h
      exact hin agg bestIn pos r w agg' p h
  · intro colVal arcs pos
    unfold scanArcList
    exact scanArcList_filter ctx colVal arcs ⟨none, pos⟩

/-- The row and weight folded by an extension result, if any. -/
def RoundRes.extRow : RoundRes → Option (ℕ × ℚ)
  | RoundRes.extended r w _ _ => some (r, w)
  | _ => none

/-- Relaxation reaching the out-of-bounds fallback: one continuous column,
a `kGeq` seed row with coefficient `-1`, and one `kLeq` row whose
coefficient `-1/8` makes every cancelling weight fall outside the safe
band for tolerance `1/2`. -/
def lpC10 : SepLP where
  numRow := 2
  numCol := 1
  rowLower := fun i => if i = 0 then .val 0 else .ninf
  rowUpper := fun i => if i = 0 then .inf else .val 0
  rows := fun i => if i = 0 then [(0, -1)] else [(0, -1/8)]
  continuousCols := [0]
  boundDistance := fun _ => 1
  rowValue := fun _ => 0
  rowDual := fun _ => 1

lemma qualOf_none_of_not_eq (lp : SepLP) (feastol : ℚ) (i : ℕ)
    (h : rowTypeOf lp feastol i ≠ RowType.kEq) : qualOf lp feastol i = none := by
  unfold qualOf
  rw [if_neg (fun hc => h hc.1)]

lemma detect_rowtype_of_not_eq (lp : SepLP) (feastol : ℚ) (i : ℕ)
    (h : rowTypeOf lp feastol i ≠ RowType.kEq) :
    (detect lp feastol).rowtype i = rowTypeOf lp feastol i := by
  obtain ⟨h1, _, h3⟩ := detect_inv lp feastol
  by_cases hi : i < lp.numRow
  · have hq : qualOf lp feastol i = none := qualOf_none_of_not_eq lp feastol i h
    have hnd : ¬ demoted lp feastol i := by
      unfold demoted
      rw [hq]
      exact fun hd => hd
    exact (h3 i hi).2 hnd
  · exact h1 i (Nat.le_of_not_lt hi)

lemma detect_colSubst_none (lp : SepLP) (feastol : ℚ) (c : ℕ)
    (h : ∀ i, i < lp.numRow → ∀ v, qualOf lp feastol i ≠ some (c, v)) :
    (detect lp feastol).colSubst c = none := by
  obtain ⟨_, h2, _⟩ := detect_inv lp feastol
  rw [h2 c]
  exact (firstClaim_none_iff lp feastol c lp.numRow).mpr h

/-- The row kinds the classifier produces on `lpC10`. -/
def rowtypeC10 : ℕ → RowType := fun i => if i = 0 then RowType.kGeq else RowType.kLeq

lemma rowTypeOf_lpC10 (i : ℕ) : rowTypeOf lpC10 (1/2) i = rowtypeC10 i := by
  by_cases hi : i = 0
  · subst hi
    norm_num [rowTypeOf, rowtypeC10, lowerslackOf, upperslackOf, lpC10,
      HVal.gtQ, HVal.ltH, (by decide : ¬ (HVal.val (0:ℚ) = HVal.inf))]
  · simp only [rowtypeC10, hi, if_false]
    norm_num [rowTypeOf, lowerslackOf, upperslackOf, lpC10, hi, HVal.gtQ, HVal.ltH,
      (by decide : ¬ (HVal.ninf = HVal.val (0:ℚ)))]

/-- The arc tables the adjacency builder produces on `lpC10`. -/
def arcsC10 : ArcState :=
  ⟨[(1, -1/8)], fun c => if c = 0 then (0, 1) else (0, 0),
   [(0, -1)], fun c => if c = 0 then (0, 1) else (0, 0)⟩

lemma buildArcs_lpC10 : buildArcs lpC10 rowtypeC10 (fun _ => none) = arcsC10 := by
  have h1 : (buildArcs lpC10 rowtypeC10 (fun _ => none)).inArcRows = [(1, -1/8)] := by
    norm_num [buildArcs, buildArcsStep, buildArcsCol, arcPush, SepLP.colEntries,
      lpC10, rowtypeC10, List.range_succ, List.range_zero, List.filterMap_cons,
      List.filterMap_nil, List.filterMap_append, List.foldl_cons, List.foldl_nil,
      List.foldl_append, List.find?]
  have h2 : (buildArcs lpC10 rowtypeC10 (fun _ => none)).colInArcs =
      fun c => if c = 0 then (0, 1) else (0, 0) := by
    funext c
    by_cases hc : c = 0 <;>
      norm_num [buildArcs, buildArcsStep, buildArcsCol, arcPush, SepLP.colEntries,
        lpC10, rowtypeC10, hc, List.range_succ, List.range_zero, List.filterMap_cons,
        List.filterMap_nil, List.filterMap_append, List.foldl_cons, List.foldl_nil,
        List.foldl_append, List.find?]
  have h3 : (buildArcs lpC10 rowtypeC10 (fun _ => none)).outArcRows = [(0, -1)] := by
    norm_num [buildArcs, buildArcsStep, buildArcsCol, arcPush, SepLP.colEntries,
      lpC10, rowtypeC10, List.range_succ, List.range_zero, List.filterMap_cons,
      List.filterMap_nil, List.filterMap_append, List.foldl_cons, List.foldl_nil,
      List.foldl_append, List.find?]
  have h4 : (buildArcs lpC10 rowtypeC10 (fun _ => none)).colOutArcs =
      fun c => if c = 0 then (0, 1) else (0, 0) := by
    funext c
    by_cases hc : c = 0 <;>
      norm_num [buildArcs, buildArcsStep, buildArcsCol, arcPush, SepLP.colEntries,
        lpC10, rowtypeC10, hc, List.range_succ, List.range_zero, List.filterMap_cons,
        List.filterMap_nil, List.filterMap_append, List.foldl_cons, List.foldl_nil,
        List.foldl_append, List.find?]
  have heta : buildArcs lpC10 rowtypeC10 (fun _ => none) =
      ⟨(buildArcs lpC10 rowtypeC10 (fun _ => none)).inArcRows,
       (buildArcs lpC10 rowtypeC10 (fun _ => none)).colInArcs,
       (buildArcs lpC10 rowtypeC10 (fun _ => none)).outArcRows,
       (buildArcs lpC10 rowtypeC10 (fun _ => none)).colOutArcs⟩ := rfl
  rw [heta, h1, h2, h3, h4]
  rfl

/-- The separator context on `lpC10` spelled out field by field, with the
cut-generation oracle left as a parameter. -/
def ctxC10lit (gc : List (ℕ × ℚ) → ℚ → Bool) : LoopCtx :=
  ⟨lpC10, 1/2, rowtypeC10, fun _ => none, arcsC10, gc, fun _ => [], fun _ => false⟩

lemma ctxC10_eq (gc : List (ℕ × ℚ) → ℚ → Bool) :
    mkCtx lpC10 (1/2) gc (fun _ => []) (fun _ => false) = ctxC10lit gc := by
  have hne : ∀ i, rowTypeOf lpC10 (1/2) i ≠ RowType.kEq := by
    intro i
    rw [rowTypeOf_lpC10 i]
    unfold rowtypeC10
    by_cases hi : i = 0 <;> simp [hi]
  have hrow : (detect lpC10 (1/2)).rowtype = rowtypeC10 := by
    funext i
    rw [detect_rowtype_of_not_eq lpC10 (1/2) i (hne i), rowTypeOf_lpC10 i]
  have hsub : (detect lpC10 (1/2)).colSubst = fun _ => none := by
    funext c
    apply detect_colSubst_none
    intro i _ v
    rw [qualOf_none_of_not_eq lpC10 (1/2) i (hne i)]
    intro hh
    cases hh
  unfold mkCtx ctxC10lit
  rw [LoopCtx.mk.injEq]
  refine ⟨rfl, rfl, hrow, hsub, ?_, rfl, rfl, rfl⟩
  rw [hrow, hsub]
  exact buildArcs_lpC10

/-- C10 (refuted: the code reaches the fallback with `bestInArcCol = -1`):
running the per-seed-row loop built by the full pipeline on `lpC10` from its
usable seed row 0 ends in the `oobAccess` state: the out-arc candidate's
in-arc scan rejects its only row (cancelling weight `-8` lies outside
`[1/2, 2]`), no in-arc candidate exists, and the `goto check_out_arc_col`
branch reads `colOutArcs[-1]`, an out-of-bounds vector access. -/
lemma runPath_succ (ctx : LoopCtx) (fuel : ℕ) (st : PathState) :
    runPath ctx (fuel + 1) st =
      (if st.pathLen = maxPathLen then
        some ⟨st.agg, st.pathLen, st.folds, st.pos, PathEnd.lenCap, []⟩
      else
        match (round ctx st.agg st.pos).res with
        | RoundRes.substituted agg' =>
          (runPath ctx fuel ⟨agg', st.pathLen, st.folds, st.pos⟩).map
            (fun f => { f with attempts := (round ctx st.agg st.pos).attempts ++ f.attempts })
        | RoundRes.stoppedCut success =>
          some ⟨st.agg, st.pathLen, st.folds, st.pos, PathEnd.cutCheckStop success,
            (round ctx st.agg st.pos).attempts⟩
        | RoundRes.deadEnd p =>
          some ⟨st.agg, st.pathLen + 1, st.folds, p, PathEnd.deadEnd,
            (round ctx st.agg st.pos).attempts⟩
        | RoundRes.oobAccess p =>
          some ⟨st.agg, st.pathLen + 1, st.folds, p, PathEnd.oob,
            (round ctx st.agg st.pos).attempts⟩
        | RoundRes.extended _ _ agg' p =>
          (runPath ctx fuel ⟨agg', st.pathLen + 1, st.folds + 1, p⟩).map
            (fun f => { f with attempts := (round ctx st.agg st.pos).attempts ++ f.attempts })) := rfl

theorem C10_oob_fallback_reached :
    (runPath (mkCtx lpC10 (1/2) (fun _ _ => false) (fun _ => []) (fun _ => false)) 14
      (seedState (mkCtx lpC10 (1/2) (fun _ _ => false) (fun _ => []) (fun _ => false)) 0 0)).map
        PathFinal.outcome = some PathEnd.oob := by
  rw [ctxC10_eq]
  have hround : round (ctxC10lit (fun _ _ => false))
      (seedState (ctxC10lit (fun _ _ => false)) 0 0).agg
      (seedState (ctxC10lit (fun _ _ => false)) 0 0).pos =
      ⟨RoundRes.oobAccess 0, [(false, 0), (true, 0)]⟩ := by
    norm_num [round, scanBase, scanEntry, currentAgg, addRowAgg, extendPath,
      inBranch, scanArcList, arcScanStep, chooseOutBranch, checkWeight, sliceInOf,
      sliceOutOf, sliceOf, seedState, ctxC10lit, arcsC10, rowtypeC10, lpC10,
      SepLP.coef, SepLP.isColIntegral, List.range_succ, List.range_zero,
      List.filterMap_cons, List.filterMap_nil, List.filterMap_append,
      List.foldl_cons, List.foldl_nil, List.foldl_append, List.find?,
      List.contains, List.elem,
      (by decide : ¬ RowType.kGeq = RowType.kLeq),
      (by decide : ¬ RowType.kLeq = RowType.kGeq), Option.some_ne_none]
  have h14 : (14 : ℕ) = 13 + 1 := rfl
  rw [h14, runPath_succ]
  rw [if_neg (by norm_num [seedState, maxPathLen])]
  simp only [hround]
  simp

/-- Relaxation where the out-branch scan fails but an in-arc candidate
exists: column 0 as in `lpC10`, plus column 1 with an in-arc in the seed row
and an out-arc in row 2 whose cancelling weight is accepted. -/
def lpC1 : SepLP where
  numRow := 3
  numCol := 2
  rowLower := fun i => if i = 0 then .val 0 else .ninf
  rowUpper := fun i => if i = 0 then .inf else .val 0
  rows := fun i =>
    if i = 0 then [(0, -1), (1, 1)] else if i = 1 then [(0, -1/8)] else [(1, 1)]
  continuousCols := [0, 1]
  boundDistance := fun _ => 1
  rowValue := fun _ => 0
  rowDual := fun _ => 1

/-- The row kinds the classifier produces on `lpC1`. -/
def rowtypeC1 : ℕ → RowType := fun i => if i = 0 then RowType.kGeq else RowType.kLeq

lemma rowTypeOf_lpC1 (i : ℕ) : rowTypeOf lpC1 (1/2) i = rowtypeC1 i := by
  by_cases hi : i = 0
  · subst hi
    norm_num [rowTypeOf, rowtypeC1, lowerslackOf, upperslackOf, lpC1,
      HVal.gtQ, HVal.ltH, (by decide : ¬ (HVal.val (0:ℚ) = HVal.inf))]
  · simp only [rowtypeC1, hi, if_false]
    norm_num [rowTypeOf, lowerslackOf, upperslackOf, lpC1, hi, HVal.gtQ, HVal.ltH,
      (by decide : ¬ (HVal.ninf = HVal.val (0:ℚ)))]

/-- The arc tables the adjacency builder produces on `lpC1`. -/
def arcsC1 : ArcState :=
  ⟨[(1, -1/8), (0, 1)],
   fun c => if c = 0 then (0, 1) else if c = 1 then (1, 2) else (0, 0),
   [(0, -1), (2, 1)],
   fun c => if c = 0 then (0, 1) else if c = 1 then (1, 2) else (0, 0)⟩

lemma buildArcs_lpC1 : buildArcs lpC1 rowtypeC1 (fun _ => none) = arcsC1 := by
  have h1 : (buildArcs lpC1 rowtypeC1 (fun _ => none)).inArcRows = [(1, -1/8), (0, 1)] := by
    norm_num [buildArcs, buildArcsStep, buildArcsCol, arcPush, SepLP.colEntries,
      lpC1, rowtypeC1, List.range_succ, List.range_zero, List.filterMap_cons,
      List.filterMap_nil, List.filterMap_append, List.foldl_cons, List.foldl_nil,
      List.foldl_append, List.find?]
  have h2 : (buildArcs lpC1 rowtypeC1 (fun _ => none)).colInArcs =
      fun c => if c = 0 then (0, 1) else if c = 1 then (1, 2) else (0, 0) := by
    funext c
    by_cases hc : c = 0
    · subst hc
      norm_num [buildArcs, buildArcsStep, buildArcsCol, arcPush, SepLP.colEntries,
        lpC1, rowtypeC1, List.range_succ, List.range_zero, List.filterMap_cons,
        List.filterMap_nil, List.filterMap_append, List.foldl_cons, List.foldl_nil,
        List.foldl_append, List.find?]
    · by_cases hc1 : c = 1
      · subst hc1
        norm_num [buildArcs, buildArcsStep, buildArcsCol, arcPush, SepLP.colEntries,
          lpC1, rowtypeC1, List.range_succ, List.range_zero, List.filterMap_cons,
          List.filterMap_nil, List.filterMap_append, List.foldl_cons, List.foldl_nil,
          List.foldl_append, List.find?]
      · norm_num [buildArcs, buildArcsStep, buildArcsCol, arcPush, SepLP.colEntries,
          lpC1, rowtypeC1, hc, hc1, List.range_succ, List.range_zero,
          List.filterMap_cons, List.filterMap_nil, List.filterMap_append,
          List.foldl_cons, List.foldl_nil, List.foldl_append, List.find?]
  have h3 : (buildArcs lpC1 rowtypeC1 (fun _ => none)).outArcRows = [(0, -1), (2, 1)] := by
    norm_num [buildArcs, buildArcsStep, buildArcsCol, arcPush, SepLP.colEntries,
      lpC1, rowtypeC1, List.range_succ, List.range_zero, List.filterMap_cons,
      List.filterMap_nil, List.filterMap_append, List.foldl_cons, List.foldl_nil,
      List.foldl_append, List.find?]
  have h4 : (buildArcs lpC1 rowtypeC1 (fun _ => none)).colOutArcs =
      fun c => if c = 0 then (0, 1) else if c = 1 then (1, 2) else (0, 0) := by
    funext c
    by_cases hc : c = 0
    · subst hc
      norm_num [buildArcs, buildArcsStep, buildArcsCol, arcPush, SepLP.colEntries,
        lpC1, rowtypeC1, List.range_succ, List.range_zero, List.filterMap_cons,
        List.filterMap_nil, List.filterMap_append, List.foldl_cons, List.foldl_nil,
        List.foldl_append, List.find?]
    · by_cases hc1 : c = 1
      · subst hc1
        norm_num [buildArcs, buildArcsStep, buildArcsCol, arcPush, SepLP.colEntries,
          lpC1, rowtypeC1, List.range_succ, List.range_zero, List.filterMap_cons,
          List.filterMap_nil, List.filterMap_append, List.foldl_cons, List.foldl_nil,
          List.foldl_append, List.find?]
      · norm_num [buildArcs, buildArcsStep, buildArcsCol, arcPush, SepLP.colEntries,
          lpC1, rowtypeC1, hc, hc1, List.range_succ, List.range_zero,
          List.filterMap_cons, List.filterMap_nil, List.filterMap_append,
          List.foldl_cons, List.foldl_nil, List.foldl_append, List.find?]
  have heta : buildArcs lpC1 rowtypeC1 (fun _ => none) =
      ⟨(buildArcs lpC1 rowtypeC1 (fun _ => none)).inArcRows,
       (buildArcs lpC1 rowtypeC1 (fun _ => none)).colInArcs,
       (buildArcs lpC1 rowtypeC1 (fun _ => none)).outArcRows,
       (buildArcs lpC1 rowtypeC1 (fun _ => none)).colOutArcs⟩ := rfl
  rw [heta, h1, h2, h3, h4]
  rfl

/-- The separator context on `lpC1`, field by field. -/
def ctxC1lit (gc : List (ℕ × ℚ) → ℚ → Bool) : LoopCtx :=
  ⟨lpC1, 1/2, rowtypeC1, fun _ => none, arcsC1, gc, fun _ => [], fun _ => false⟩

lemma ctxC1_eq (gc : List (ℕ × ℚ) → ℚ → Bool) :
    mkCtx lpC1 (1/2) gc (fun _ => []) (fun _ => false) = ctxC1lit gc := by
  have hne : ∀ i, rowTypeOf lpC1 (1/2) i ≠ RowType.kEq := by
    intro i
    rw [rowTypeOf_lpC1 i]
    unfold rowtypeC1
    by_cases hi : i = 0 <;> simp [hi]
  have hrow : (detect lpC1 (1/2)).rowtype = rowtypeC1 := by
    funext i
    rw [detect_rowtype_of_not_eq lpC1 (1/2) i (hne i), rowTypeOf_lpC1 i]
  have hsub : (detect lpC1 (1/2)).colSubst = fun _ => none := by
    funext c
    apply detect_colSubst_none
    intro i _ v
    rw [qualOf_none_of_not_eq lpC1 (1/2) i (hne i)]
    intro hh
    cases hh
  unfold mkCtx ctxC1lit
  rw [LoopCtx.mk.injEq]
  refine ⟨rfl, rfl, hrow, hsub, ?_, rfl, rfl, rfl⟩
  rw [hrow, hsub]
  exact buildArcs_lpC1

/-- C1, amended behavior of a failed arc scan: when the in-arc branch's scan
(reached directly, or via the fallback from a failed out-branch scan) finds
no qualifying row, the path stops as a dead end; a failed out-branch scan
does not stop the path but falls through (`goto check_out_arc_col`) to the
in-arc candidate's branch. -/
theorem C1_dead_end_behavior (ctx : LoopCtx) (agg : ℕ → ℚ)
    (bestOut bestIn : Option (ℕ × ℚ × ℚ)) (pos : ℕ) :
    (∀ c v bd, chooseOutBranch ctx.feastol bestOut bestIn = false →
      bestIn = some (c, v, bd) →
      (scanArcList ctx v (sliceOutOf ctx c) pos).best = none →
      extendPath ctx agg bestOut bestIn pos =
        RoundRes.deadEnd (scanArcList ctx v (sliceOutOf ctx c) pos).pos) ∧
    (∀ c v bd, chooseOutBranch ctx.feastol bestOut bestIn = true →
      bestOut = some (c, v, bd) →
      (scanArcList ctx v (sliceInOf ctx c) pos).best = none →
      extendPath ctx agg bestOut bestIn pos =
        inBranch ctx agg bestIn (scanArcList ctx v (sliceInOf ctx c) pos).pos) ∧
    (∀ c v bd pos', bestIn = some (c, v, bd) →
      (scanArcList ctx v (sliceOutOf ctx c) pos').best = none →
      inBranch ctx agg bestIn pos' =
        RoundRes.deadEnd (scanArcList ctx v (sliceOutOf ctx c) pos').pos) := by
  have hin : ∀ c v bd pos', bestIn = some (c, v, bd) →
      (scanArcList ctx v (sliceOutOf ctx c) pos').best = none →
      inBranch ctx agg bestIn pos' =
        RoundRes.deadEnd (scanArcList ctx v (sliceOutOf ctx c) pos').pos := by
    intro c v bd pos' hbi hscan
    subst hbi
    unfold inBranch
    simp only
    rw [hscan]
  refine ⟨?_, ?_, hin⟩
  · intro c v bd hch hbi hscan
    unfold extendPath
    rw [hch]
    simp only [Bool.false_eq_true, if_false]
    exact hin c v bd pos hbi hscan
  · intro c v bd hch hbo hscan
    unfold extendPath
    rw [hch]
    simp only [if_true]
    subst hbo
    simp only
    rw [hscan]

/-- C1 counterexample: in the pipeline-built context on `lpC1`, at seed
row 0 the chosen candidate is the out-arc column 0, the scan of its in-arc
list finds no qualifying row (weight `-8` rejected), and yet the round does
not stop: it falls through and folds row 2 with weight `-1`. -/
theorem C1_counterexample :
    (scanBase (ctxC1lit (fun _ _ => false))
        (seedState (ctxC1lit (fun _ _ => false)) 0 0).agg).bestOut = some (0, -1, 1) ∧
    (scanBase (ctxC1lit (fun _ _ => false))
        (seedState (ctxC1lit (fun _ _ => false)) 0 0).agg).bestIn = some (1, 1, 1) ∧
    chooseOutBranch (1/2) (some (0, -1, 1)) (some (1, 1, 1)) = true ∧
    (scanArcList (ctxC1lit (fun _ _ => false)) (-1)
        (sliceInOf (ctxC1lit (fun _ _ => false)) 0) 0).best = none ∧
    ((round (ctxC1lit (fun _ _ => false))
        (seedState (ctxC1lit (fun _ _ => false)) 0 0).agg
        (seedState (ctxC1lit (fun _ _ => false)) 0 0).pos).res).extRow = some (2, -1) ∧
    mkCtx lpC1 (1/2) (fun _ _ => false) (fun _ => []) (fun _ => false) =
      ctxC1lit (fun _ _ => false) := by
  refine ⟨?_, ?_, ?_, ?_, ?_, ctxC1_eq _⟩ <;>
    norm_num [RoundRes.extRow, round, scanBase, scanEntry, currentAgg, addRowAgg,
      extendPath, inBranch, scanArcList, arcScanStep, chooseOutBranch, checkWeight,
      sliceInOf, sliceOutOf, sliceOf, seedState, ctxC1lit, arcsC1, rowtypeC1, lpC1,
      SepLP.coef, SepLP.isColIntegral, List.range_succ, List.range_zero,
      List.filterMap_cons, List.filterMap_nil, List.filterMap_append,
      List.foldl_cons, List.foldl_nil, List.foldl_append, List.find?,
      List.contains, List.elem, Option.some_ne_none,
      (by decide : ¬ RowType.kGeq = RowType.kLeq),
      (by decide : ¬ RowType.kLeq = RowType.kGeq)]

/-- Witness for the amended C1: on `lpC10`, an in-arc candidate whose
out-arc scan rejects its only row makes the branch a dead end. -/
theorem C1_dead_end_behavior_witness :
    inBranch (ctxC10lit (fun _ _ => false)) (fun _ => 0) (some (0, 1/8, 1)) 0 =
      RoundRes.deadEnd 0 := by
  have h := (C1_dead_end_behavior (ctxC10lit (fun _ _ => false)) (fun _ => 0)
    none (some (0, 1/8, 1)) 0).2.2 0 (1/8) 1 0 rfl ?hscan
  case hscan =>
    norm_num [scanArcList, arcScanStep, checkWeight, sliceOutOf, sliceOf,
      ctxC10lit, arcsC10, lpC10, List.foldl_cons, List.foldl_nil,
      (show |(1:ℚ)/8| = 1/8 from abs_of_pos (by norm_num))]
  rw [h]
  norm_num [scanArcList, arcScanStep, checkWeight, sliceOutOf, sliceOf,
    ctxC10lit, arcsC10, lpC10, List.foldl_cons, List.foldl_nil,
    (show |(1:ℚ)/8| = 1/8 from abs_of_pos (by norm_num))]

/-- Witness for C8: the extension step on `lpC1` folds row 2 with weight
`-1`, which lies inside the band `[1/2, 2]`. -/
theorem C8_weight_safety_witness :
    (1/2 : ℚ) ≤ |(-1 : ℚ)| ∧ |(-1 : ℚ)| ≤ 1 / (1/2 : ℚ) := by
  have hext : extendPath (ctxC1lit (fun _ _ => false)) (fun _ => 0)
      (some (0, -1, 1)) (some (1, 1, 1)) 0 =
      RoundRes.extended 2 (-1)
        (addRowAgg (ctxC1lit (fun _ _ => false)).lp (fun _ => 0) 2 (-1)) 0 := by
    norm_num [extendPath, inBranch, chooseOutBranch, scanArcList, arcScanStep,
      checkWeight, sliceInOf, sliceOutOf, sliceOf, ctxC1lit, arcsC1, lpC1,
      List.foldl_cons, List.foldl_nil]
  exact (C8_weight_safety (ctxC1lit (fun _ _ => false))).1 (fun _ => 0)
    (some (0, -1, 1)) (some (1, 1, 1)) 0 2 (-1)
    (addRowAgg (ctxC1lit (fun _ _ => false)).lp (fun _ => 0) 2 (-1)) 0 hext

lemma inBranch_ne_stoppedCut (ctx : LoopCtx) (agg : ℕ → ℚ)
    (bestIn : Option (ℕ × ℚ × ℚ)) (pos : ℕ) (b : Bool) :
    inBranch ctx agg bestIn pos ≠ RoundRes.stoppedCut b := by
  intro h
  unfold inBranch at h
  cases bestIn with
  | none => cases h
  | some x =>
    obtain ⟨c, v, bd⟩ := x
    simp only at h
    cases hb : (scanArcList ctx v (sliceOutOf ctx c) pos).best with
    | none => rw [hb] at h; cases h
    | some y =>
      obtain ⟨r, w, sc⟩ := y
      rw [hb] at h
      cases h

lemma extendPath_ne_stoppedCut (ctx : LoopCtx) (agg : ℕ → ℚ)
    (bestOut bestIn : Option (ℕ × ℚ × ℚ)) (pos : ℕ) (b : Bool) :
    extendPath ctx agg bestOut bestIn pos ≠ RoundRes.stoppedCut b := by
  intro h
  unfold extendPath at h
  by_cases hch : chooseOutBranch ctx.feastol bestOut bestIn = true
  · rw [if_pos hch] at h
    cases bestOut with
    | none => cases h
    | some x =>
      obtain ⟨c, v, bd⟩ := x
      simp only at h
      cases hb : (scanArcList ctx v (sliceInOf ctx c) pos).best with
      | none =>
        rw [hb] at h
        exact inBranch_ne_stoppedCut ctx agg bestIn _ b h
      | some y =>
        obtain ⟨r, w, sc⟩ := y
        rw [hb] at h
        cases h
  · rw [if_neg hch] at h
    exact inBranch_ne_stoppedCut ctx agg bestIn pos b h

/-- C2, amended: in a round with no substitution fold, cut generation is
attempted on the as-is aggregation with rhs 0, and on the complemented form
(again rhs 0) only when the first attempt fails — the `||` short-circuits —
and the round stops at the cut check exactly when the combined success flag
is set or neither extension candidate exists. -/
theorem C2_cut_attempts (ctx : LoopCtx) (agg : ℕ → ℚ) (pos : ℕ)
    (h : (scanBase ctx agg).added = false) :
    (ctx.genCut (currentAgg ctx.lp agg) 0 = true →
      (round ctx agg pos).attempts = [(false, 0)]) ∧
    (ctx.genCut (currentAgg ctx.lp agg) 0 = false →
      (round ctx agg pos).attempts = [(false, 0), (true, 0)]) ∧
    ((∃ b, (round ctx agg pos).res = RoundRes.stoppedCut b) ↔
      ((if ctx.genCut (currentAgg ctx.lp agg) 0 then true
        else ctx.genCut (ctx.complement agg) 0) = true ∨
       ((scanBase ctx agg).bestOut = none ∧ (scanBase ctx agg).bestIn = none))) := by
  have hr : round ctx agg pos =
      (if (if ctx.genCut (currentAgg ctx.lp agg) 0 then true
            else ctx.genCut (ctx.complement agg) 0) = true ∨
          ((scanBase ctx agg).bestOut = none ∧ (scanBase ctx agg).bestIn = none) then
        ⟨RoundRes.stoppedCut (if ctx.genCut (currentAgg ctx.lp agg) 0 then true
            else ctx.genCut (ctx.complement agg) 0),
         if ctx.genCut (currentAgg ctx.lp agg) 0 then [(false, (0 : ℚ))]
         else [(false, (0 : ℚ)), (true, (0 : ℚ))]⟩
      else
        ⟨extendPath ctx (scanBase ctx agg).agg (scanBase ctx agg).bestOut
           (scanBase ctx agg).bestIn pos,
         if ctx.genCut (currentAgg ctx.lp agg) 0 then [(false, (0 : ℚ))]
         else [(false, (0 : ℚ)), (true, (0 : ℚ))]⟩) := by
    unfold round
    rw [if_neg (by rw [h]; exact Bool.false_ne_true)]
  refine ⟨?_, ?_, ?_⟩
  · intro ha1
    rw [hr, if_pos (Or.inl (by simp [ha1]))]
    simp [ha1]
  · intro ha1f
    rw [hr]
    simp only [ha1f, Bool.false_eq_true, if_false]
    split <;> rfl
  · rw [hr]
    by_cases hstop : ((if ctx.genCut (currentAgg ctx.lp agg) 0 then true
        else ctx.genCut (ctx.complement agg) 0) = true ∨
        ((scanBase ctx agg).bestOut = none ∧ (scanBase ctx agg).bestIn = none))
    · rw [if_pos hstop]
      exact ⟨fun _ => hstop, fun _ => ⟨_, rfl⟩⟩
    · rw [if_neg hstop]
      constructor
      · rintro ⟨b, hb⟩
        exact absurd hb (extendPath_ne_stoppedCut ctx (scanBase ctx agg).agg
          (scanBase ctx agg).bestOut (scanBase ctx agg).bestIn pos b)
      · intro hc
        exact absurd hc hstop

/-- C2 counterexample: in the pipeline-built context on `lpC10` with a cut
generator that succeeds immediately, the (substitution-free) first round of
seed row 0 performs exactly one cut-generation attempt, not two. -/
theorem C2_counterexample :
    (scanBase (ctxC10lit (fun _ _ => true))
        (seedState (ctxC10lit (fun _ _ => true)) 0 0).agg).added = false ∧
    (round (ctxC10lit (fun _ _ => true))
        (seedState (ctxC10lit (fun _ _ => true)) 0 0).agg
        (seedState (ctxC10lit (fun _ _ => true)) 0 0).pos).attempts = [(false, 0)] ∧
    mkCtx lpC10 (1/2) (fun _ _ => true) (fun _ => []) (fun _ => false) =
      ctxC10lit (fun _ _ => true) := by
  refine ⟨?_, ?_, ctxC10_eq _⟩ <;>
    norm_num [round, scanBase, scanEntry, currentAgg, addRowAgg, seedState,
      ctxC10lit, arcsC10, rowtypeC10, lpC10, SepLP.coef, SepLP.isColIntegral,
      List.range_succ, List.range_zero, List.filterMap_cons, List.filterMap_nil,
      List.filterMap_append, List.foldl_cons, List.foldl_nil, List.foldl_append,
      List.find?, Option.some_ne_none,
      (by decide : ¬ RowType.kGeq = RowType.kLeq),
      (by decide : ¬ RowType.kLeq = RowType.kGeq)]

/-- Witness for the amended C2: on `lpC10` with an always-failing generator,
the round performs both attempts, as-is first and complemented second. -/
theorem C2_cut_attempts_witness :
    (round (ctxC10lit (fun _ _ => false))
        (seedState (ctxC10lit (fun _ _ => false)) 0 0).agg
        (seedState (ctxC10lit (fun _ _ => false)) 0 0).pos).attempts =
      [(false, 0), (true, 0)] := by
  refine (C2_cut_attempts (ctxC10lit (fun _ _ => false))
    (seedState (ctxC10lit (fun _ _ => false)) 0 0).agg
    (seedState (ctxC10lit (fun _ _ => false)) 0 0).pos ?_).2.1 rfl
  norm_num [scanBase, scanEntry, currentAgg, addRowAgg, seedState, ctxC10lit,
    arcsC10, rowtypeC10, lpC10, SepLP.coef, SepLP.isColIntegral, List.range_succ,
    List.range_zero, List.filterMap_cons, List.filterMap_nil, List.filterMap_append,
    List.foldl_cons, List.foldl_nil, List.foldl_append, List.find?,
    (by decide : ¬ RowType.kGeq = RowType.kLeq),
    (by decide : ¬ RowType.kLeq = RowType.kGeq)]

/-- Well-formedness of the relaxation data, as HiGHS guarantees it: the
continuous-column list has no duplicates and stays in range, and each row's
sparse entries carry nonzero values and distinct column indices. -/
structure SepWF (lp : SepLP) : Prop where
  ccNodup : lp.continuousCols.Nodup
  ccLt : ∀ c ∈ lp.continuousCols, c < lp.numCol
  valsNz : ∀ r, r < lp.numRow → ∀ e ∈ lp.rows r, e.2 ≠ 0
  colsNodup : ∀ r, r < lp.numRow → ((lp.rows r).map Prod.fst).Nodup

/-- Everything the termination argument needs about recorded substitutions:
the pivot is the recorded column's actual coefficient and is nonzero, the
column is eligible, and the substitution row touches no other substituted
column. -/
def SubstOK (ctx : LoopCtx) : Prop :=
  ∀ c r p, ctx.colSubst c = some (r, p) →
    ctx.lp.coef r c = p ∧ p ≠ 0 ∧ ctx.lp.boundDistance c ≠ 0 ∧ c < ctx.lp.numCol ∧
    ctx.lp.isColIntegral c = false ∧
    (∀ c', c' ≠ c → ctx.colSubst c' ≠ none → ctx.lp.coef r c' = 0)

lemma le_sum_of_mem (f : ℕ → ℕ) : ∀ (l : List ℕ) (b : ℕ), b ∈ l → f b ≤ (l.map f).sum := by
  intro l
  induction l with
  | nil => intro b hb; exact absurd hb (List.not_mem_nil b)
  | cons x t ih =>
    intro b hb
    rw [List.map_cons, List.sum_cons]
    rcases List.mem_cons.mp hb with rfl | hbt
    · exact Nat.le_add_right _ _
    · exact le_trans (ih b hbt) (Nat.le_add_left _ _)

lemma two_mem_sum_ge (f : ℕ → ℕ) :
    ∀ (l : List ℕ), l.Nodup → ∀ a b, a ∈ l → b ∈ l → a ≠ b →
      1 ≤ f a → 1 ≤ f b → 2 ≤ (l.map f).sum := by
  intro l
  induction l with
  | nil => intro _ a _ ha; exact absurd ha (List.not_mem_nil a)
  | cons x t ih =>
    intro hnd a b ha hb hab hfa hfb
    obtain ⟨hxt, hndt⟩ := List.nodup_cons.mp hnd
    rw [List.map_cons, List.sum_cons]
    rcases List.mem_cons.mp ha with rfl | hat
    · have hbt : b ∈ t := by
        rcases List.mem_cons.mp hb with rfl | h
        · exact absurd rfl hab
        · exact h
      have := le_sum_of_mem f t b hbt
      omega
    · rcases List.mem_cons.mp hb with rfl | hbt
      · have := le_sum_of_mem f t a hat
        omega
      · have := ih hndt a b hat hbt hab hfa hfb
        omega

lemma find?_eq_of_mem_nodup : ∀ (l : List (ℕ × ℚ)) (c : ℕ) (p : ℚ),
    (c, p) ∈ l → (l.map Prod.fst).Nodup →
    l.find? (fun e => e.1 = c) = some (c, p) := by
  intro l
  induction l with
  | nil => intro c p hm; exact absurd hm (List.not_mem_nil _)
  | cons e t ih =>
    intro c p hm hnd
    obtain ⟨hxt, hndt⟩ := List.nodup_cons.mp (List.map_cons Prod.fst e t ▸ hnd)
    by_cases hc : e.1 = c
    · have : e = (c, p) := by
        rcases List.mem_cons.mp hm with rfl | hmt
        · rfl
        · exact absurd (hc ▸ List.mem_map_of_mem Prod.fst hmt) hxt
      rw [List.find?_cons_of_pos _ (by simp [hc])]
      rw [this]
    · have hmt : (c, p) ∈ t := by
        rcases List.mem_cons.mp hm with rfl | hmt
        · exact absurd rfl hc
        · exact hmt
      rw [List.find?_cons_of_neg _ (by simp [hc])]
      exact ih c p hmt hndt

lemma countP_row_pos (lp : SepLP) (r c : ℕ) (v : ℚ) (hr : r < lp.numRow)
    (hm : (c, v) ∈ lp.rows r) :
    1 ≤ (lp.colEntries c).countP (fun e => e.1 == r) := by
  have hfind : ∃ e, (lp.rows r).find? (fun e => e.1 = c) = some e := by
    rw [← Option.isSome_iff_exists, List.find?_isSome]
    exact ⟨(c, v), hm, by simp⟩
  obtain ⟨e, he⟩ := hfind
  have hmem : (r, e.2) ∈ lp.colEntries c := by
    unfold SepLP.colEntries
    rw [List.mem_filterMap]
    refine ⟨r, List.mem_range.mpr hr, ?_⟩
    rw [he]
  have hpos : 0 < List.countP (fun e => e.1 == r) (lp.colEntries c) :=
    List.countP_pos.mpr ⟨(r, e.2), hmem, by simp⟩
  omega

lemma detect_colSubst_char (lp : SepLP) (feastol : ℚ) (c r : ℕ) (p : ℚ)
    (h : (detect lp feastol).colSubst c = some (r, p)) :
    r < lp.numRow ∧ rowTypeOf lp feastol r = RowType.kEq ∧
    numContinuousOf lp r = 1 ∧ (c, p) ∈ lp.rows r ∧
    c ∈ lp.continuousCols ∧ lp.boundDistance c ≠ 0 := by
  obtain ⟨_, h2, _⟩ := detect_inv lp feastol
  rw [h2 c] at h
  obtain ⟨hr, hq, _⟩ := (firstClaim_some_iff lp feastol c lp.numRow r p).mp h
  unfold qualOf at hq
  by_cases hg : rowTypeOf lp feastol r = RowType.kEq ∧ numContinuousOf lp r = 1
  · rw [if_pos hg] at hq
    have hmem := List.mem_of_find?_eq_some hq
    have hpred := List.find?_some hq
    rw [Bool.and_eq_true, decide_eq_true_eq, bne_iff_ne] at hpred
    exact ⟨hr, hg.1, hg.2, hmem, hpred.1, hpred.2⟩
  · rw [if_neg hg] at hq
    cases hq

lemma substOK_mkCtx (lp : SepLP) (feastol : ℚ)
    (genCut : List (ℕ × ℚ) → ℚ → Bool) (complement : (ℕ → ℚ) → List (ℕ × ℚ))
    (bits : ℕ → Bool) (hwf : SepWF lp) :
    SubstOK (mkCtx lp feastol genCut complement bits) := by
  intro c r p hc
  show lp.coef r c = p ∧ p ≠ 0 ∧ lp.boundDistance c ≠ 0 ∧ c < lp.numCol ∧
    lp.isColIntegral c = false ∧
    (∀ c', c' ≠ c → (detect lp feastol).colSubst c' ≠ none → lp.coef r c' = 0)
  have hc' : (detect lp feastol).colSubst c = some (r, p) := hc
  obtain ⟨hr, _, hnum, hmem, hcc, hbd⟩ := detect_colSubst_char lp feastol c r p hc'
  have hcoef : lp.coef r c = p := by
    unfold SepLP.coef
    rw [find?_eq_of_mem_nodup (lp.rows r) c p hmem (hwf.colsNodup r hr)]
  refine ⟨hcoef, hwf.valsNz r hr (c, p) hmem, hbd, hwf.ccLt c hcc, ?_, ?_⟩
  · unfold SepLP.isColIntegral
    simp [hcc]
  · intro c' hne hsub
    obtain ⟨rp, hrp⟩ := Option.ne_none_iff_exists'.mp hsub
    obtain ⟨r', p'⟩ := rp
    obtain ⟨_, _, _, _, hcc', hbd'⟩ := detect_colSubst_char lp feastol c' r' p' hrp
    by_contra hnz
    have hfind : ∃ e, (lp.rows r).find? (fun e => e.1 = c') = some e := by
      unfold SepLP.coef at hnz
      cases hf : (lp.rows r).find? (fun e => e.1 = c') with
      | none => rw [hf] at hnz; exact absurd rfl hnz
      | some e => exact ⟨e, rfl⟩
    obtain ⟨e, he⟩ := hfind
    have hepred := List.find?_some he
    rw [decide_eq_true_eq] at hepred
    have hemem := List.mem_of_find?_eq_some he
    have hc'mem : (c', e.2) ∈ lp.rows r := by
      have : e = (e.1, e.2) := rfl
      rw [hepred] at this
      rw [← this]
      exact hemem
    have hcount1 : 1 ≤ (lp.colEntries c).countP (fun e => e.1 == r) :=
      countP_row_pos lp r c p hr hmem
    have hcount2 : 1 ≤ (lp.colEntries c').countP (fun e => e.1 == r) :=
      countP_row_pos lp r c' e.2 hr hc'mem
    have hmemf : ∀ x, x ∈ lp.continuousCols → lp.boundDistance x ≠ 0 →
        x ∈ lp.continuousCols.filter (fun x => lp.boundDistance x != 0) := by
      intro x hx hbx
      rw [List.mem_filter]
      exact ⟨hx, by rw [bne_iff_ne]; exact hbx⟩
    have hge2 : 2 ≤ numContinuousOf lp r := by
      unfold numContinuousOf
      exact two_mem_sum_ge (fun x => (lp.colEntries x).countP (fun e => e.1 == r))
        (lp.continuousCols.filter (fun x => lp.boundDistance x != 0))
        (hwf.ccNodup.filter _) c' c (hmemf c' hcc' hbd') (hmemf c hcc hbd)
        hne hcount2 hcount1
    rw [hnum] at hge2
    omega

lemma scanEntry_agg (ctx : LoopCtx) (s : ScanState) (e : ℕ × ℚ) :
    (scanEntry ctx s e).agg = s.agg ∨
    (∃ r p, ctx.colSubst e.1 = some (r, p) ∧
      (scanEntry ctx s e).agg = addRowAgg ctx.lp s.agg r (-(e.2) / p)) := by
  unfold scanEntry
  by_cases hg : e.1 ≥ ctx.lp.numCol ∨ ctx.lp.boundDistance e.1 = 0 ∨
      ctx.lp.isColIntegral e.1 = true
  · rw [if_pos hg]
    exact Or.inl rfl
  · rw [if_neg hg]
    cases hcs : ctx.colSubst e.1 with
    | some rp =>
      obtain ⟨r, p⟩ := rp
      exact Or.inr ⟨r, p, rfl, rfl⟩
    | none =>
      left
      repeat' split
      all_goals first | rfl | (rename_i heq; cases heq)

lemma scanEntry_subst (ctx : LoopCtx) (hok : SubstOK ctx) (s : ScanState) (e : ℕ × ℚ)
    (r : ℕ) (p : ℚ) (hcs : ctx.colSubst e.1 = some (r, p)) :
    (scanEntry ctx s e).agg = addRowAgg ctx.lp s.agg r (-(e.2) / p) := by
  obtain ⟨_, _, hbd, hlt, hint, _⟩ := hok e.1 r p hcs
  unfold scanEntry
  rw [if_neg (by
    rintro (h1 | h2 | h3)
    · exact absurd hlt (not_lt.mpr h1)
    · exact hbd h2
    · rw [hint] at h3; cases h3)]
  rw [hcs]

lemma scanEntry_added_of_none (ctx : LoopCtx) (s : ScanState) (e : ℕ × ℚ)
    (hcs : ctx.colSubst e.1 = none) (h : s.added = false) :
    (scanEntry ctx s e).added = false := by
  unfold scanEntry
  by_cases hg : e.1 ≥ ctx.lp.numCol ∨ ctx.lp.boundDistance e.1 = 0 ∨
      ctx.lp.isColIntegral e.1 = true
  · rw [if_pos hg]
    exact h
  · rw [if_neg hg]
    cases hcs2 : ctx.colSubst e.1 with
    | some rp => rw [hcs] at hcs2; cases hcs2
    | none =>
      repeat' split
      all_goals first | exact h | (rename_i heq; cases heq)

lemma scanFold_clears (ctx : LoopCtx) (agg : ℕ → ℚ) (hok : SubstOK ctx) :
    ∀ (T : List (ℕ × ℚ)) (s : ScanState),
      (∀ e ∈ T, e.2 = agg e.1) →
      (T.map Prod.fst).Nodup →
      (∀ c r p, ctx.colSubst c = some (r, p) →
        ((∃ v, (c, v) ∈ T) → s.agg c = agg c) ∧ ((¬ ∃ v, (c, v) ∈ T) → s.agg c = 0)) →
      ∀ c r p, ctx.colSubst c = some (r, p) →
        (T.foldl (scanEntry ctx) s).agg c = 0 := by
  intro T
  induction T with
  | nil =>
    intro s _ _ hinv c r p hc
    exact (hinv c r p hc).2 (by rintro ⟨v, hv⟩; exact List.not_mem_nil _ hv)
  | cons e t ih =>
    intro s hvals hnd hinv c r p hc
    rw [List.foldl_cons]
    obtain ⟨hxt, hndt⟩ := List.nodup_cons.mp (List.map_cons Prod.fst e t ▸ hnd)
    refine ih (scanEntry ctx s e)
      (fun e' he' => hvals e' (List.mem_cons_of_mem e he')) hndt ?_ c r p hc
    intro c₀ r₀ p₀ hc₀
    cases hcse : ctx.colSubst e.1 with
    | some rp =>
      obtain ⟨r₁, p₁⟩ := rp
      have hagg := scanEntry_subst ctx hok s e r₁ p₁ hcse
      by_cases hce : c₀ = e.1
      · have hcse' : ctx.colSubst c₀ = some (r₁, p₁) := by rw [hce]; exact hcse
        have hval_e : e.2 = agg e.1 := hvals e (List.mem_cons_self e t)
        have hval_c : e.2 = agg c₀ := by rw [hce]; exact hval_e
        have hmemself : (∃ v, (c₀, v) ∈ e :: t) := by
          refine ⟨e.2, ?_⟩
          have he2 : (c₀, e.2) = e := by rw [hce]
          rw [he2]
          exact List.mem_cons_self e t
        have hsagg : s.agg c₀ = agg c₀ := (hinv c₀ r₁ p₁ hcse').1 hmemself
        have hcoef : ctx.lp.coef r₁ c₀ = p₁ := (hok c₀ r₁ p₁ hcse').1
        have hp₁ : p₁ ≠ 0 := (hok c₀ r₁ p₁ hcse').2.1
        have hzero : (scanEntry ctx s e).agg c₀ = 0 := by
          rw [hagg]
          show s.agg c₀ + -(e.2) / p₁ * ctx.lp.coef r₁ c₀ = 0
          rw [hcoef, div_mul_cancel₀ _ hp₁, hsagg, ← hval_c]
          ring
        constructor
        · rintro ⟨v, hv⟩
          have : c₀ ∈ t.map Prod.fst := List.mem_map_of_mem Prod.fst hv
          rw [hce] at this
          exact absurd this hxt
        · intro _
          exact hzero
      · have hsubne : ctx.colSubst c₀ ≠ none := by rw [hc₀]; simp
        have hcoef0 : ctx.lp.coef r₁ c₀ = 0 :=
          (hok e.1 r₁ p₁ hcse).2.2.2.2.2 c₀ hce hsubne
        have haggc : (scanEntry ctx s e).agg c₀ = s.agg c₀ := by
          rw [hagg]
          show s.agg c₀ + -(e.2) / p₁ * ctx.lp.coef r₁ c₀ = s.agg c₀
          rw [hcoef0, mul_zero, add_zero]
        obtain ⟨h1, h2⟩ := hinv c₀ r₀ p₀ hc₀
        constructor
        · rintro ⟨v, hv⟩
          rw [haggc]
          exact h1 ⟨v, List.mem_cons_of_mem e hv⟩
        · intro hnex
          rw [haggc]
          apply h2
          rintro ⟨v, hv⟩
          rcases List.mem_cons.mp hv with heq | hvt
          · exact hce (congrArg Prod.fst heq)
          · exact hnex ⟨v, hvt⟩
    | none =>
      have hagg : (scanEntry ctx s e).agg = s.agg := by
        rcases scanEntry_agg ctx s e with h | ⟨r', p', hcs', _⟩
        · exact h
        · rw [hcse] at hcs'; cases hcs'
      have hce : c₀ ≠ e.1 := by
        intro hh
        rw [hh, hcse] at hc₀
        cases hc₀
      obtain ⟨h1, h2⟩ := hinv c₀ r₀ p₀ hc₀
      rw [hagg]
      constructor
      · rintro ⟨v, hv⟩
        exact h1 ⟨v, List.mem_cons_of_mem e hv⟩
      · intro hnex
        apply h2
        rintro ⟨v, hv⟩
        rcases List.mem_cons.mp hv with heq | hvt
        · exact hce (congrArg Prod.fst heq)
        · exact hnex ⟨v, hvt⟩

lemma currentAgg_mem (lp : SepLP) (agg : ℕ → ℚ) (e : ℕ × ℚ)
    (he : e ∈ currentAgg lp agg) : e.2 = agg e.1 ∧ agg e.1 ≠ 0 ∧ e.1 < lp.numCol := by
  unfold currentAgg at he
  rw [List.mem_filterMap] at he
  obtain ⟨a, ha, hfa⟩ := he
  by_cases h0 : agg a ≠ 0
  · rw [if_pos h0] at hfa
    cases hfa
    exact ⟨rfl, h0, List.mem_range.mp ha⟩
  · rw [if_neg h0] at hfa
    cases hfa

lemma currentAgg_mem_self (lp : SepLP) (agg : ℕ → ℚ) (c : ℕ)
    (hlt : c < lp.numCol) (h0 : agg c ≠ 0) : (c, agg c) ∈ currentAgg lp agg := by
  unfold currentAgg
  rw [List.mem_filterMap]
  exact ⟨c, List.mem_range.mpr hlt, by rw [if_pos h0]⟩

lemma filterMap_fst_nodup (f : ℕ → Option (ℕ × ℚ))
    (hf : ∀ a b, f a = some b → b.1 = a) :
    ∀ (l : List ℕ), l.Nodup → ((l.filterMap f).map Prod.fst).Nodup := by
  intro l
  induction l with
  | nil => intro _; simp
  | cons a t ih =>
    intro hnd
    obtain ⟨hat, hndt⟩ := List.nodup_cons.mp hnd
    rw [List.filterMap_cons]
    cases hfa : f a with
    | none => exact ih hndt
    | some b =>
      rw [List.map_cons, List.nodup_cons]
      refine ⟨?_, ih hndt⟩
      intro hmem
      rw [List.mem_map] at hmem
      obtain ⟨x, hx, hfx⟩ := hmem
      rw [List.mem_filterMap] at hx
      obtain ⟨a', ha', hfa'⟩ := hx
      have hxa' : x.1 = a' := hf a' x hfa'
      have hba : b.1 = a := hf a b hfa
      have : a' = a := by rw [← hxa', hfx, hba]
      rw [this] at ha'
      exact hat ha'

lemma currentAgg_fst_nodup (lp : SepLP) (agg : ℕ → ℚ) :
    ((currentAgg lp agg).map Prod.fst).Nodup := by
  unfold currentAgg
  refine filterMap_fst_nodup _ ?_ _ (List.nodup_range lp.numCol)
  intro a b hb
  by_cases h0 : agg a ≠ 0
  · rw [if_pos h0] at hb
    cases hb
    rfl
  · rw [if_neg h0] at hb
    cases hb

lemma scanBase_clears (ctx : LoopCtx) (agg : ℕ → ℚ) (hok : SubstOK ctx) :
    ∀ c, ctx.colSubst c ≠ none → (scanBase ctx agg).agg c = 0 := by
  intro c hc
  obtain ⟨rp, hrp⟩ := Option.ne_none_iff_exists'.mp hc
  obtain ⟨r, p⟩ := rp
  unfold scanBase
  refine scanFold_clears ctx agg hok (currentAgg ctx.lp agg) ⟨agg, false, none, none⟩
    (fun e he => (currentAgg_mem ctx.lp agg e he).1) (currentAgg_fst_nodup ctx.lp agg)
    ?_ c r p hrp
  intro c₀ r₀ p₀ hc₀
  obtain ⟨_, _, _, hlt₀, _, _⟩ := hok c₀ r₀ p₀ hc₀
  constructor
  · intro _
    rfl
  · intro hnex
    by_contra h0
    exact hnex ⟨agg c₀, currentAgg_mem_self ctx.lp agg c₀ hlt₀ h0⟩

lemma scanFold_added (ctx : LoopCtx) :
    ∀ (L : List (ℕ × ℚ)) (s : ScanState),
      (∀ e ∈ L, ctx.colSubst e.1 = none) → s.added = false →
      (L.foldl (scanEntry ctx) s).added = false := by
  intro L
  induction L with
  | nil => intro s _ h; exact h
  | cons e t ih =>
    intro s hnone h
    rw [List.foldl_cons]
    exact ih (scanEntry ctx s e) (fun e' he' => hnone e' (List.mem_cons_of_mem e he'))
      (scanEntry_added_of_none ctx s e (hnone e (List.mem_cons_self e t)) h)

lemma scanBase_added_false (ctx : LoopCtx) (agg : ℕ → ℚ)
    (h : ∀ c, ctx.colSubst c ≠ none → agg c = 0) :
    (scanBase ctx agg).added = false := by
  unfold scanBase
  refine scanFold_added ctx (currentAgg ctx.lp agg) ⟨agg, false, none, none⟩ ?_ rfl
  intro e he
  obtain ⟨_, hnz, _⟩ := currentAgg_mem ctx.lp agg e he
  cases hcs : ctx.colSubst e.1 with
  | none => rfl
  | some rp =>
    exact absurd (h e.1 (by rw [hcs]; simp)) hnz

lemma runPath_zero (ctx : LoopCtx) (st : PathState) : runPath ctx 0 st = none := rfl

lemma runPath_pos_cap (ctx : LoopCtx) (fuel : ℕ) (st : PathState) (hf : fuel ≠ 0)
    (hpl : st.pathLen = maxPathLen) :
    runPath ctx fuel st =
      some ⟨st.agg, st.pathLen, st.folds, st.pos, PathEnd.lenCap, []⟩ := by
  obtain ⟨m, rfl⟩ : ∃ m, fuel = m + 1 := ⟨fuel - 1, by omega⟩
  rw [runPath_succ, if_pos hpl]

lemma runPath_pos_substituted (ctx : LoopCtx) (fuel : ℕ) (st : PathState) (agg' : ℕ → ℚ)
    (hf : fuel ≠ 0) (hpl : ¬ st.pathLen = maxPathLen)
    (hres : (round ctx st.agg st.pos).res = RoundRes.substituted agg') :
    runPath ctx fuel st =
      (runPath ctx (fuel - 1) ⟨agg', st.pathLen, st.folds, st.pos⟩).map
        (fun f => { f with attempts := (round ctx st.agg st.pos).attempts ++ f.attempts }) := by
  obtain ⟨m, rfl⟩ : ∃ m, fuel = m + 1 := ⟨fuel - 1, by omega⟩
  rw [runPath_succ, if_neg hpl, hres, Nat.add_sub_cancel]

lemma runPath_pos_stopped (ctx : LoopCtx) (fuel : ℕ) (st : PathState) (success : Bool)
    (hf : fuel ≠ 0) (hpl : ¬ st.pathLen = maxPathLen)
    (hres : (round ctx st.agg st.pos).res = RoundRes.stoppedCut success) :
    runPath ctx fuel st =
      some ⟨st.agg, st.pathLen, st.folds, st.pos, PathEnd.cutCheckStop success,
        (round ctx st.agg st.pos).attempts⟩ := by
  obtain ⟨m, rfl⟩ : ∃ m, fuel = m + 1 := ⟨fuel - 1, by omega⟩
  rw [runPath_succ, if_neg hpl, hres]

lemma runPath_pos_deadEnd (ctx : LoopCtx) (fuel : ℕ) (st : PathState) (p : ℕ)
    (hf : fuel ≠ 0) (hpl : ¬ st.pathLen = maxPathLen)
    (hres : (round ctx st.agg st.pos).res = RoundRes.deadEnd p) :
    runPath ctx fuel st =
      some ⟨st.agg, st.pathLen + 1, st.folds, p, PathEnd.deadEnd,
        (round ctx st.agg st.pos).attempts⟩ := by
  obtain ⟨m, rfl⟩ : ∃ m, fuel = m + 1 := ⟨fuel - 1, by omega⟩
  rw [runPath_succ, if_neg hpl, hres]

lemma runPath_pos_oob (ctx : LoopCtx) (fuel : ℕ) (st : PathState) (p : ℕ)
    (hf : fuel ≠ 0) (hpl : ¬ st.pathLen = maxPathLen)
    (hres : (round ctx st.agg st.pos).res = RoundRes.oobAccess p) :
    runPath ctx fuel st =
      some ⟨st.agg, st.pathLen + 1, st.folds, p, PathEnd.oob,
        (round ctx st.agg st.pos).attempts⟩ := by
  obtain ⟨m, rfl⟩ : ∃ m, fuel = m + 1 := ⟨fuel - 1, by omega⟩
  rw [runPath_succ, if_neg hpl, hres]

lemma runPath_pos_extended (ctx : LoopCtx) (fuel : ℕ) (st : PathState)
    (r : ℕ) (w : ℚ) (agg' : ℕ → ℚ) (p : ℕ)
    (hf : fuel ≠ 0) (hpl : ¬ st.pathLen = maxPathLen)
    (hres : (round ctx st.agg st.pos).res = RoundRes.extended r w agg' p) :
    runPath ctx fuel st =
      (runPath ctx (fuel - 1) ⟨agg', st.pathLen + 1, st.folds + 1, p⟩).map
        (fun f => { f with attempts := (round ctx st.agg st.pos).attempts ++ f.attempts }) := by
  obtain ⟨m, rfl⟩ : ∃ m, fuel = m + 1 := ⟨fuel - 1, by omega⟩
  rw [runPath_succ, if_neg hpl, hres, Nat.add_sub_cancel]

lemma inBranch_ne_substituted (ctx : LoopCtx) (agg : ℕ → ℚ)
    (bestIn : Option (ℕ × ℚ × ℚ)) (pos : ℕ) (agg' : ℕ → ℚ) :
    inBranch ctx agg bestIn pos ≠ RoundRes.substituted agg' := by
  intro h
  unfold inBranch at h
  cases bestIn with
  | none => cases h
  | some x =>
    obtain ⟨c, v, bd⟩ := x
    simp only at h
    cases hb : (scanArcList ctx v (sliceOutOf ctx c) pos).best with
    | none => rw [hb] at h; cases h
    | some y =>
      obtain ⟨r, w, sc⟩ := y
      rw [hb] at h
      cases h

lemma extendPath_ne_substituted (ctx : LoopCtx) (agg : ℕ → ℚ)
    (bestOut bestIn : Option (ℕ × ℚ × ℚ)) (pos : ℕ) (agg' : ℕ → ℚ) :
    extendPath ctx agg bestOut bestIn pos ≠ RoundRes.substituted agg' := by
  intro h
  unfold extendPath at h
  by_cases hch : chooseOutBranch ctx.feastol bestOut bestIn = true
  · rw [if_pos hch] at h
    cases bestOut with
    | none => cases h
    | some x =>
      obtain ⟨c, v, bd⟩ := x
      simp only at h
      cases hb : (scanArcList ctx v (sliceInOf ctx c) pos).best with
      | none =>
        rw [hb] at h
        exact inBranch_ne_substituted ctx agg bestIn _ agg' h
      | some y =>
        obtain ⟨r, w, sc⟩ := y
        rw [hb] at h
        cases h
  · rw [if_neg hch] at h
    exact inBranch_ne_substituted ctx agg bestIn pos agg' h

lemma round_substituted_added (ctx : LoopCtx) (agg : ℕ → ℚ) (pos : ℕ) (agg' : ℕ → ℚ)
    (h : (round ctx agg pos).res = RoundRes.substituted agg') :
    (scanBase ctx agg).added = true ∧ agg' = (scanBase ctx agg).agg := by
  simp only [round] at h
  by_cases ha : (scanBase ctx agg).added = true
  · rw [if_pos ha] at h
    have h' : RoundRes.substituted (scanBase ctx agg).agg = RoundRes.substituted agg' := h
    refine ⟨ha, ?_⟩
    cases h'
    rfl
  · rw [if_neg ha] at h
    exfalso
    repeat' split at h
    all_goals
      first
        | cases h
        | exact extendPath_ne_substituted ctx (scanBase ctx agg).agg
            (scanBase ctx agg).bestOut (scanBase ctx agg).bestIn pos agg' h

lemma isSome_map_eq {α β : Type} (f : α → β) (o : Option α) :
    (o.map f).isSome = o.isSome := by cases o <;> rfl

lemma runPath_isSome_mono (ctx : LoopCtx) :
    ∀ (f' f : ℕ) (st : PathState), f ≤ f' →
      (runPath ctx f st).isSome = true → (runPath ctx f' st).isSome = true := by
  intro f'
  induction f' with
  | zero =>
    intro f st hf h
    have : f = 0 := Nat.le_zero.mp hf
    subst this
    exact h
  | succ n ih =>
    intro f st hf h
    cases f with
    | zero => rw [runPath_zero] at h; cases h
    | succ m =>
      have hm : m ≤ n := by omega
      by_cases hpl : st.pathLen = maxPathLen
      · rw [runPath_pos_cap ctx (n+1) st (by omega) hpl]
        rfl
      · cases hres : (round ctx st.agg st.pos).res with
        | substituted agg' =>
          rw [runPath_pos_substituted ctx (m+1) st agg' (by omega) hpl hres,
            Nat.add_sub_cancel, isSome_map_eq] at h
          rw [runPath_pos_substituted ctx (n+1) st agg' (by omega) hpl hres,
            Nat.add_sub_cancel, isSome_map_eq]
          exact ih m ⟨agg', st.pathLen, st.folds, st.pos⟩ hm h
        | stoppedCut s =>
          rw [runPath_pos_stopped ctx (n+1) st s (by omega) hpl hres]
          rfl
        | deadEnd p =>
          rw [runPath_pos_deadEnd ctx (n+1) st p (by omega) hpl hres]
          rfl
        | oobAccess p =>
          rw [runPath_pos_oob ctx (n+1) st p (by omega) hpl hres]
          rfl
        | extended r w agg' p =>
          rw [runPath_pos_extended ctx (m+1) st r w agg' p (by omega) hpl hres,
            Nat.add_sub_cancel, isSome_map_eq] at h
          rw [runPath_pos_extended ctx (n+1) st r w agg' p (by omega) hpl hres,
            Nat.add_sub_cancel, isSome_map_eq]
          exact ih m ⟨agg', st.pathLen + 1, st.folds + 1, p⟩ hm h

lemma runPath_bound (ctx : LoopCtx) :
    ∀ (fuel : ℕ) (st : PathState) (r : PathFinal),
      st.pathLen ≤ 6 → st.folds ≤ st.pathLen → runPath ctx fuel st = some r →
      r.pathLen ≤ 6 ∧ r.folds ≤ 6 := by
  intro fuel
  induction fuel with
  | zero =>
    intro st r _ _ h
    rw [runPath_zero] at h
    cases h
  | succ n ih =>
    intro st r h6 hfp h
    by_cases hpl : st.pathLen = maxPathLen
    · rw [runPath_pos_cap ctx (n+1) st (by omega) hpl] at h
      cases h
      exact ⟨h6, show st.folds ≤ 6 by omega⟩
    · have hne6 : st.pathLen ≠ 6 := fun hh => hpl hh
      have hlt : st.pathLen < 6 := by omega
      cases hres : (round ctx st.agg st.pos).res with
      | substituted agg' =>
        rw [runPath_pos_substituted ctx (n+1) st agg' (by omega) hpl hres,
          Nat.add_sub_cancel] at h
        cases hrec : runPath ctx n ⟨agg', st.pathLen, st.folds, st.pos⟩ with
        | none => rw [hrec] at h; cases h
        | some f0 =>
          rw [hrec] at h
          cases h
          exact ih ⟨agg', st.pathLen, st.folds, st.pos⟩ f0 h6 hfp hrec
      | stoppedCut s =>
        rw [runPath_pos_stopped ctx (n+1) st s (by omega) hpl hres] at h
        cases h
        exact ⟨h6, show st.folds ≤ 6 by omega⟩
      | deadEnd p =>
        rw [runPath_pos_deadEnd ctx (n+1) st p (by omega) hpl hres] at h
        cases h
        exact ⟨show st.pathLen + 1 ≤ 6 by omega, show st.folds ≤ 6 by omega⟩
      | oobAccess p =>
        rw [runPath_pos_oob ctx (n+1) st p (by omega) hpl hres] at h
        cases h
        exact ⟨show st.pathLen + 1 ≤ 6 by omega, show st.folds ≤ 6 by omega⟩
      | extended rr w agg' p =>
        rw [runPath_pos_extended ctx (n+1) st rr w agg' p (by omega) hpl hres,
          Nat.add_sub_cancel] at h
        cases hrec : runPath ctx n ⟨agg', st.pathLen + 1, st.folds + 1, p⟩ with
        | none => rw [hrec] at h; cases h
        | some f0 =>
          rw [hrec] at h
          cases h
          exact ih ⟨agg', st.pathLen + 1, st.folds + 1, p⟩ f0
            (show st.pathLen + 1 ≤ 6 by omega)
            (show st.folds + 1 ≤ st.pathLen + 1 by omega) hrec

lemma runPath_total (ctx : LoopCtx) (hok : SubstOK ctx) :
    ∀ (n : ℕ) (st : PathState), st.pathLen ≤ 6 → 6 - st.pathLen ≤ n →
      ((runPath ctx (2*n + 2) st).isSome = true ∧
       ((∀ c, ctx.colSubst c ≠ none → st.agg c = 0) →
         (runPath ctx (2*n + 1) st).isSome = true)) := by
  intro n
  induction n with
  | zero =>
    intro st h6 hn
    have hpl : st.pathLen = maxPathLen := by
      show st.pathLen = 6
      omega
    constructor
    · rw [runPath_pos_cap ctx (2*0+2) st (by omega) hpl]
      rfl
    · intro _
      rw [runPath_pos_cap ctx (2*0+1) st (by omega) hpl]
      rfl
  | succ n ih =>
    have helperAll : ∀ st : PathState, st.pathLen ≤ 6 → 6 - st.pathLen ≤ n + 1 →
        (∀ c, ctx.colSubst c ≠ none → st.agg c = 0) →
        (runPath ctx (2*(n+1) + 1) st).isSome = true := by
      intro st h6 hn hagg
      by_cases hpl : st.pathLen = maxPathLen
      · rw [runPath_pos_cap ctx _ st (by omega) hpl]
        rfl
      · have hne6 : st.pathLen ≠ 6 := fun hh => hpl hh
        have hlt : st.pathLen < 6 := by omega
        cases hres : (round ctx st.agg st.pos).res with
        | substituted agg' =>
          exfalso
          have hadd := (round_substituted_added ctx st.agg st.pos agg' hres).1
          rw [scanBase_added_false ctx st.agg hagg] at hadd
          cases hadd
        | stoppedCut s =>
          rw [runPath_pos_stopped ctx _ st s (by omega) hpl hres]
          rfl
        | deadEnd p =>
          rw [runPath_pos_deadEnd ctx _ st p (by omega) hpl hres]
          rfl
        | oobAccess p =>
          rw [runPath_pos_oob ctx _ st p (by omega) hpl hres]
          rfl
        | extended r w agg' p =>
          rw [runPath_pos_extended ctx _ st r w agg' p (by omega) hpl hres]
          have h2 : 2*(n+1) + 1 - 1 = 2*n + 2 := by omega
          rw [h2, isSome_map_eq]
          exact (ih ⟨agg', st.pathLen + 1, st.folds + 1, p⟩
            (show st.pathLen + 1 ≤ 6 by omega)
            (show 6 - (st.pathLen + 1) ≤ n by omega)).1
    intro st h6 hn
    refine ⟨?_, helperAll st h6 hn⟩
    by_cases hpl : st.pathLen = maxPathLen
    · rw [runPath_pos_cap ctx _ st (by omega) hpl]
      rfl
    · have hne6 : st.pathLen ≠ 6 := fun hh => hpl hh
      have hlt : st.pathLen < 6 := by omega
      cases hres : (round ctx st.agg st.pos).res with
      | substituted agg' =>
        rw [runPath_pos_substituted ctx _ st agg' (by omega) hpl hres]
        have h2 : 2*(n+1) + 2 - 1 = 2*(n+1) + 1 := by omega
        rw [h2, isSome_map_eq]
        refine helperAll ⟨agg', st.pathLen, st.folds, st.pos⟩
          (show st.pathLen ≤ 6 from h6) (show 6 - st.pathLen ≤ n + 1 from hn) ?_
        intro c hc
        have haggeq := (round_substituted_added ctx st.agg st.pos agg' hres).2
        show agg' c = 0
        rw [haggeq]
        exact scanBase_clears ctx st.agg hok c hc
      | stoppedCut s =>
        rw [runPath_pos_stopped ctx _ st s (by omega) hpl hres]
        rfl
      | deadEnd p =>
        rw [runPath_pos_deadEnd ctx _ st p (by omega) hpl hres]
        rfl
      | oobAccess p =>
        rw [runPath_pos_oob ctx _ st p (by omega) hpl hres]
        rfl
      | extended r w agg' p =>
        rw [runPath_pos_extended ctx _ st r w agg' p (by omega) hpl hres]
        have h2 : 2*(n+1) + 2 - 1 = 2*n + 3 := by omega
        rw [h2, isSome_map_eq]
        have hmain := (ih ⟨agg', st.pathLen + 1, st.folds + 1, p⟩
          (show st.pathLen + 1 ≤ 6 by omega)
          (show 6 - (st.pathLen + 1) ≤ n by omega)).1
        exact runPath_isSome_mono ctx (2*n + 3) (2*n + 2)
          ⟨agg', st.pathLen + 1, st.folds + 1, p⟩ (by omega) hmain

/-- C3: on well-formed relaxation data the per-seed-row loop, run through
the full pipeline context, terminates (fuel 14 = 2·6+2 always suffices) and
the number of rows folded into the aggregation — the seed plus the
extension folds, substitutions excluded — never exceeds 6, and neither does
`currPathLen`. -/
theorem C3_path_terminates_and_bounded (lp : SepLP) (feastol : ℚ)
    (genCut : List (ℕ × ℚ) → ℚ → Bool) (complement : (ℕ → ℚ) → List (ℕ × ℚ))
    (bits : ℕ → Bool) (hwf : SepWF lp) (i pos : ℕ) :
    ∃ r, runPath (mkCtx lp feastol genCut complement bits) 14
        (seedState (mkCtx lp feastol genCut complement bits) i pos) = some r ∧
      r.folds ≤ 6 ∧ r.pathLen ≤ 6 := by
  have hok := substOK_mkCtx lp feastol genCut complement bits hwf
  have h1 : (seedState (mkCtx lp feastol genCut complement bits) i pos).pathLen ≤ 6 := by
    show (1 : ℕ) ≤ 6
    omega
  have h2 : 6 - (seedState (mkCtx lp feastol genCut complement bits) i pos).pathLen ≤ 6 := by
    show 6 - (1 : ℕ) ≤ 6
    omega
  have hsome := (runPath_total (mkCtx lp feastol genCut complement bits) hok 6
    (seedState (mkCtx lp feastol genCut complement bits) i pos) h1 h2).1
  have h14 : 2*6 + 2 = 14 := rfl
  rw [h14] at hsome
  obtain ⟨r, hr⟩ := Option.isSome_iff_exists.mp hsome
  have hb := runPath_bound (mkCtx lp feastol genCut complement bits) 14
    (seedState (mkCtx lp feastol genCut complement bits) i pos) r h1
    (show (1 : ℕ) ≤ 1 from le_rfl) hr
  exact ⟨r, hr, hb.2, hb.1⟩

/-- Witness for C3: the loop on the concrete relaxation `lpC10` terminates
within fuel 14 with at most 6 folded rows. -/
theorem C3_path_terminates_and_bounded_witness :
    ∃ r, runPath (mkCtx lpC10 (1/2) (fun _ _ => false) (fun _ => []) (fun _ => false)) 14
        (seedState (mkCtx lpC10 (1/2) (fun _ _ => false) (fun _ => []) (fun _ => false)) 0 0) =
        some r ∧ r.folds ≤ 6 ∧ r.pathLen ≤ 6 := by
  refine C3_path_terminates_and_bounded lpC10 (1/2) (fun _ _ => false) (fun _ => [])
    (fun _ => false) ⟨by decide, by decide, ?_, ?_⟩ 0 0
  · intro r hr e he
    have hr2 : r < 2 := hr
    interval_cases r
    · have he' : e ∈ [((0 : ℕ), (-1 : ℚ))] := he
      rw [List.mem_singleton] at he'
      rw [he']
      norm_num
    · have he' : e ∈ [((0 : ℕ), (-1/8 : ℚ))] := he
      rw [List.mem_singleton] at he'
      rw [he']
      norm_num
  · intro r hr
    have hr2 : r < 2 := hr
    interval_cases r
    · show ([((0 : ℕ), (-1 : ℚ))].map Prod.fst).Nodup
      decide
    · show ([((0 : ℕ), (-1/8 : ℚ))].map Prod.fst).Nodup
      decide

end PathSep
